import Mathlib

set_option maxHeartbeats 1000000

/-
Shallow embedding of the terraform-provider-pihole resilient API client
(internal/provider/client.go and the provider-level client cache).

Modelling conventions:
- Go strings are embedded as `List Char` (`Str`).
- The appliance's record stores are embedded as the list of wire-format
  lines the appliance would report (`List Str`); GET returns that list,
  PUT appends the given line, DELETE removes the lines equal to the given
  composite value.
- Record-client operations return the list of HTTP requests they issue
  (in order) together with the resulting appliance state.  Mutating
  requests are the PUT/DELETE ones; GET list calls are also recorded.
- The mutual recursion CreateDNSRecord -> UpdateDNSRecord ->
  CreateDNSRecord from the source terminates only via appliance
  semantics, so the embedding carries an explicit fuel parameter and the
  theorems quantify over sufficient fuel.
-/

abbrev Str := List Char

/-- Go strings.SplitN(s, sep, 2) for a one-character separator: the text
before the first occurrence of the separator paired with everything after
it, or `none` when the separator does not occur (Go's one-part result). -/
def splitN2 (sep : Char) : Str → Option (Str × Str)
  | [] => none
  | c :: rest =>
    if c = sep then some ([], rest)
    else
      match splitN2 sep rest with
      | none => none
      | some (a, b) => some (c :: a, b)

/-- Characters Go url.PathEscape leaves unescaped inside one path segment:
ASCII alphanumerics, the RFC 3986 unreserved marks, and the sub-delims Go
does not reserve for path-segment structure. -/
def isUnescapedPathChar (c : Char) : Bool :=
  c.isAlpha || c.isDigit ||
    ['-', '_', '.', '~', '$', '&', '+', ':', '=', '@'].contains c

/-- Uppercase hexadecimal digit, as Go's percent-encoding emits. -/
def hexDigitChar (n : Nat) : Char :=
  if n < 10 then Char.ofNat (48 + n) else Char.ofNat (55 + n)

/-- Percent-escape of one (byte-sized) character. -/
def escapeChar (c : Char) : Str :=
  ['%', hexDigitChar (c.toNat / 16 % 16), hexDigitChar (c.toNat % 16)]

/-- Go url.PathEscape, character by character. -/
def pathEscape : Str → Str
  | [] => []
  | c :: rest => (if isUnescapedPathChar c then [c] else escapeChar c) ++ pathEscape rest

/-- Host record as decoded from the wire line "ip domain". -/
structure DNSRecord where
  domain : Str
  ip : Str
deriving DecidableEq

/-- Alias record as decoded from the wire line "domain,target". -/
structure CNAMERecord where
  domain : Str
  target : Str
deriving DecidableEq

inductive Method where
  | get
  | put
  | delete
deriving DecidableEq

/-- One HTTP request issued through makeRequest. -/
structure Req where
  method : Method
  endpoint : Str
deriving DecidableEq

/-- The mutating requests of a trace (everything that is not a GET). -/
def mutating (t : List Req) : List Req :=
  t.filter (fun r => r.method != Method.get)

def hostsPath : Str := "/api/config/dns/hosts".toList

def cnamesPath : Str := "/api/config/dns/cnameRecords".toList

def getHostsReq : Req := ⟨Method.get, hostsPath⟩

def getCnamesReq : Req := ⟨Method.get, cnamesPath⟩

/-- PUT /api/config/dns/hosts/<url-escaped line>. -/
def putHostReq (line : Str) : Req := ⟨Method.put, hostsPath ++ '/' :: pathEscape line⟩

/-- DELETE /api/config/dns/hosts/<url-escaped line>. -/
def deleteHostReq (line : Str) : Req := ⟨Method.delete, hostsPath ++ '/' :: pathEscape line⟩

/-- PUT /api/config/dns/cnameRecords/<url-escaped line>. -/
def putCnameReq (line : Str) : Req := ⟨Method.put, cnamesPath ++ '/' :: pathEscape line⟩

/-- DELETE /api/config/dns/cnameRecords/<url-escaped line>. -/
def deleteCnameReq (line : Str) : Req := ⟨Method.delete, cnamesPath ++ '/' :: pathEscape line⟩

/-- Decoding of one hosts wire line: strings.SplitN(recordStr, " ", 2);
a record is produced only when two parts result. -/
def parseHostLine (l : Str) : Option DNSRecord :=
  (splitN2 ' ' l).map fun p => { ip := p.1, domain := p.2 }

/-- Decoding of one cname wire line: strings.SplitN(recordStr, ",", 2). -/
def parseCnameLine (l : Str) : Option CNAMERecord :=
  (splitN2 ',' l).map fun p => { domain := p.1, target := p.2 }

/-- GetDNSRecords, successful response path: decode every line, silently
dropping the ones that do not split into two fields. -/
def GetDNSRecords (st : List Str) : List DNSRecord :=
  st.filterMap parseHostLine

/-- GetCNAMERecords, successful response path. -/
def GetCNAMERecords (st : List Str) : List CNAMERecord :=
  st.filterMap parseCnameLine

/-- The composite wire value "ip domain" rebuilt from a host record. -/
def hostLine (r : DNSRecord) : Str := r.ip ++ ' ' :: r.domain

/-- The composite wire value "domain,target" rebuilt from an alias record. -/
def cnameLine (r : CNAMERecord) : Str := r.domain ++ ',' :: r.target

/-- DeleteDNSRecord: list, find the first record with the requested domain,
and DELETE its full composite value; no record means already deleted. -/
def DeleteDNSRecord (st : List Str) (domain : Str) : List Req × List Str :=
  match (GetDNSRecords st).find? (fun r => r.domain == domain) with
  | none => ([getHostsReq], st)
  | some r =>
    ([getHostsReq, deleteHostReq (hostLine r)], st.filter (fun l => l != hostLine r))

/-- DeleteCNAMERecord, same algorithm over the alias store. -/
def DeleteCNAMERecord (st : List Str) (domain : Str) : List Req × List Str :=
  match (GetCNAMERecords st).find? (fun r => r.domain == domain) with
  | none => ([getCnamesReq], st)
  | some r =>
    ([getCnamesReq, deleteCnameReq (cnameLine r)], st.filter (fun l => l != cnameLine r))

/-- CreateDNSRecord: list; same-value record means no-op; a record with a
different value delegates to UpdateDNSRecord, whose delete-then-create body
is inlined here so that the recursion is structural on the fuel; no record
means PUT of "ip domain". -/
def CreateDNSRecord : Nat → List Str → Str → Str → Option (List Req × List Str)
  | 0, _, _, _ => none
  | fuel + 1, st, domain, ip =>
    match (GetDNSRecords st).find? (fun r => r.domain == domain) with
    | some r =>
      if r.ip == ip then some ([getHostsReq], st)
      else
        match DeleteDNSRecord st domain with
        | (t1, st1) =>
          match CreateDNSRecord fuel st1 domain ip with
          | none => none
          | some (t2, st2) => some (getHostsReq :: (t1 ++ t2), st2)
    | none =>
      some ([getHostsReq, putHostReq (ip ++ ' ' :: domain)], st ++ [ip ++ ' ' :: domain])

/-- UpdateDNSRecord: delete the old record, then create the new one. -/
def UpdateDNSRecord (fuel : Nat) (st : List Str) (domain ip : Str) :
    Option (List Req × List Str) :=
  match DeleteDNSRecord st domain with
  | (t1, st1) =>
    match CreateDNSRecord fuel st1 domain ip with
    | none => none
    | some (t2, st2) => some (t1 ++ t2, st2)

/-- CreateCNAMERecord, same algorithm over the alias store. -/
def CreateCNAMERecord : Nat → List Str → Str → Str → Option (List Req × List Str)
  | 0, _, _, _ => none
  | fuel + 1, st, domain, target =>
    match (GetCNAMERecords st).find? (fun r => r.domain == domain) with
    | some r =>
      if r.target == target then some ([getCnamesReq], st)
      else
        match DeleteCNAMERecord st domain with
        | (t1, st1) =>
          match CreateCNAMERecord fuel st1 domain target with
          | none => none
          | some (t2, st2) => some (getCnamesReq :: (t1 ++ t2), st2)
    | none =>
      some ([getCnamesReq, putCnameReq (domain ++ ',' :: target)], st ++ [domain ++ ',' :: target])

/-- UpdateCNAMERecord: delete the old record, then create the new one. -/
def UpdateCNAMERecord (fuel : Nat) (st : List Str) (domain target : Str) :
    Option (List Req × List Str) :=
  match DeleteCNAMERecord st domain with
  | (t1, st1) =>
    match CreateCNAMERecord fuel st1 domain target with
    | none => none
    | some (t2, st2) => some (t1 ++ t2, st2)

example : CreateDNSRecord 2 [] "a.example.com".toList "10.0.0.5".toList =
    some ([getHostsReq, putHostReq "10.0.0.5 a.example.com".toList],
      ["10.0.0.5 a.example.com".toList]) := by decide

example :
    (CreateDNSRecord 2 ["10.0.0.5 a.example.com".toList] "a.example.com".toList
      "10.0.0.6".toList).map (fun p => mutating p.1) =
    some [deleteHostReq "10.0.0.5 a.example.com".toList,
      putHostReq "10.0.0.6 a.example.com".toList] := by decide

/-
Retry executor (makeRequestWithRetry) and session manager
(authenticateWithRetry).  The network is embedded as an oracle giving the
outcome of each attempt (indexed from 0); a run returns the list of sleep
durations performed, the number of attempts made, and the final result.
-/

/-- Go strings.Contains: the needle occurs contiguously in the haystack. -/
def strContains (needle : Str) : Str → Bool
  | [] => needle.isEmpty
  | c :: rest => needle.isPrefixOf (c :: rest) || strContains needle rest

/-- isRetryableError: the error text contains one of the four transient
substrings. -/
def isRetryableError (e : Str) : Bool :=
  strContains "connection refused".toList e || strContains "EOF".toList e ||
    strContains "timeout".toList e || strContains "connection reset".toList e

/-- Outcome of one transport attempt: a transport error or an HTTP response
(any status code). -/
inductive Outcome where
  | err (msg : Str)
  | resp (status : Nat)
deriving DecidableEq

/-- Result of a whole request run: the error text or the response status. -/
abbrev ReqResult := Str ⊕ Nat

/-- Go's "request failed after n attempts" wrap; dead code in the source
(every loop iteration either continues or returns) kept for fidelity. -/
def reqExhaustedMsg (lastErr : Str) : Str :=
  "request failed after all attempts: ".toList ++ lastErr

/-- The body of makeRequestWithRetry from a given attempt index, with fuel
for the remaining loop iterations.  Sleeps attempt²·backoff before every
attempt except the first, returns any HTTP response as-is, retries a
transport error only when it is retryable and budget remains. -/
def requestRun (net : Nat → Outcome) (retries backoff : Nat) :
    Nat → Nat → Str → List Nat × Nat × ReqResult
  | _, 0, lastErr => ([], 0, Sum.inl (reqExhaustedMsg lastErr))
  | attempt, fuel + 1, _ =>
    let sleeps : List Nat := if 0 < attempt then [attempt * attempt * backoff] else []
    match net attempt with
    | .resp status => (sleeps, 1, Sum.inr status)
    | .err e =>
      if isRetryableError e ∧ attempt < retries then
        match requestRun net retries backoff (attempt + 1) fuel e with
        | (ss, n, r) => (sleeps ++ ss, n + 1, r)
      else (sleeps, 1, Sum.inl e)

/-- makeRequestWithRetry: the loop runs for attempt = 0..retries. -/
def makeRequestWithRetry (net : Nat → Outcome) (retries backoff : Nat) :
    List Nat × Nat × ReqResult :=
  requestRun net retries backoff 0 (retries + 1) []

/-- The decoded body of a 200 authentication response. -/
structure AuthBody where
  valid : Bool
  sid : Str
  csrf : Str
  message : Str
deriving DecidableEq

/-- Outcome of one authentication attempt: transport error, body-read
error, or a response carrying its status, raw body, and the unmarshal
result (error text or decoded body) used when the status is 200. -/
inductive AuthAttempt where
  | netErr (msg : Str)
  | readErr (msg : Str)
  | resp (status : Nat) (body : Str) (parsed : Str ⊕ AuthBody)
deriving DecidableEq

inductive AuthResult where
  | success (sid csrf : Str)
  | failure (msg : Str)
deriving DecidableEq

/-- Error text "failed to authenticate with Pi-hole: err". -/
def authTransportMsg (e : Str) : Str :=
  "failed to authenticate with Pi-hole: ".toList ++ e

/-- Error text "failed to read auth response: err". -/
def authReadMsg (e : Str) : Str :=
  "failed to read auth response: ".toList ++ e

/-- Error text "authentication failed with status: code, body: body". -/
def authStatusMsg (status : Nat) (body : Str) : Str :=
  "authentication failed with status: ".toList ++ (toString status).toList ++
    ", body: ".toList ++ body

/-- Error text "failed to unmarshal auth response: err, body: body". -/
def authUnmarshalMsg (e body : Str) : Str :=
  "failed to unmarshal auth response: ".toList ++ e ++ ", body: ".toList ++ body

/-- Error text "authentication failed: message" for an invalid session. -/
def authInvalidMsg (message : Str) : Str :=
  "authentication failed: ".toList ++ message

/-- Error text for the exhausted-loop fallthrough; dead code in the source,
kept for fidelity. -/
def authExhaustedMsg (lastErr : Str) : Str :=
  "authentication failed after all attempts: ".toList ++ lastErr

/-- The body of authenticateWithRetry from a given attempt index.  401 and
429 responses and an invalid session are returned immediately; retryable
transport errors, read errors, other non-200 statuses, and unmarshal errors
are retried while attempts remain. -/
def authRun (orc : Nat → AuthAttempt) (retries backoff : Nat) :
    Nat → Nat → Str → List Nat × Nat × AuthResult
  | _, 0, lastErr => ([], 0, .failure (authExhaustedMsg lastErr))
  | attempt, fuel + 1, _ =>
    let sleeps : List Nat := if 0 < attempt then [attempt * attempt * backoff] else []
    match orc attempt with
    | .netErr e =>
      if isRetryableError e ∧ attempt < retries then
        match authRun orc retries backoff (attempt + 1) fuel e with
        | (ss, n, r) => (sleeps ++ ss, n + 1, r)
      else (sleeps, 1, .failure (authTransportMsg e))
    | .readErr e =>
      if attempt < retries then
        match authRun orc retries backoff (attempt + 1) fuel e with
        | (ss, n, r) => (sleeps ++ ss, n + 1, r)
      else (sleeps, 1, .failure (authReadMsg e))
    | .resp status body parsed =>
      if status ≠ 200 then
        if status = 401 ∨ status = 429 then (sleeps, 1, .failure (authStatusMsg status body))
        else if attempt < retries then
          match authRun orc retries backoff (attempt + 1) fuel (authStatusMsg status body) with
          | (ss, n, r) => (sleeps ++ ss, n + 1, r)
        else (sleeps, 1, .failure (authStatusMsg status body))
      else
        match parsed with
        | .inl je =>
          if attempt < retries then
            match authRun orc retries backoff (attempt + 1) fuel (authUnmarshalMsg je body) with
            | (ss, n, r) => (sleeps ++ ss, n + 1, r)
          else (sleeps, 1, .failure (authUnmarshalMsg je body))
        | .inr ab =>
          if ab.valid then (sleeps, 1, .success ab.sid ab.csrf)
          else (sleeps, 1, .failure (authInvalidMsg ab.message))

/-- authenticateWithRetry: the loop runs for attempt = 0..retries. -/
def authenticateWithRetry (orc : Nat → AuthAttempt) (retries backoff : Nat) :
    List Nat × Nat × AuthResult :=
  authRun orc retries backoff 0 (retries + 1) []

example :
    makeRequestWithRetry (fun k => if k < 2 then .err "i/o timeout".toList else .resp 200)
      3 50 = ([50, 200], 3, Sum.inr 200) := by decide

example :
    authenticateWithRetry (fun _ => .resp 500 "boom".toList (Sum.inl [])) 1 10 =
      ([10], 2, .failure (authStatusMsg 500 "boom".toList)) := by decide

example :
    authenticateWithRetry (fun _ => .resp 429 "slow down".toList (Sum.inl [])) 3 10 =
      ([], 1, .failure (authStatusMsg 429 "slow down".toList)) := by decide

/-
Config client (GetConfig / SetConfig / setWebserverConfigValue).  Go's
map[string]interface{} documents are embedded as association-list objects
of a JSON-like value type; a Go map update is replace-first-or-append.
-/

/-- Go strings.Split on a one-character separator (no limit); never
returns an empty list, and Split("", sep) = [""]. -/
def splitAll (sep : Char) : Str → List Str
  | [] => [[]]
  | c :: rest =>
    if c = sep then [] :: splitAll sep rest
    else
      match splitAll sep rest with
      | s :: ss => (c :: s) :: ss
      | [] => [[c]]

/-- JSON-like value for nested configuration documents. -/
inductive JVal where
  | bool (b : Bool)
  | str (s : Str)
  | num (n : Int)
  | obj (fields : List (Str × JVal))

/-- Nested configuration object: association list of keyed values. -/
abbrev JObj := List (Str × JVal)

instance : Inhabited JVal := ⟨JVal.obj []⟩

/-- Lookup of a key in an object (Go map read). -/
def lookupJ : JObj → Str → Option JVal
  | [], _ => none
  | (k, v) :: rest, key => if k = key then some v else lookupJ rest key

/-- Update of a key in an object (Go map write): replace the first binding
when the key is present, append it otherwise. -/
def setKey : JObj → Str → JVal → JObj
  | [], key, v => [(key, v)]
  | (k, w) :: rest, key, v =>
    if k = key then (k, v) :: rest else (k, w) :: setKey rest key v

/-- Configuration-path errors, tagged by kind (the source formats them as
error strings). -/
inductive CfgErr where
  | notFound (key : Str)
  | badStructure (key : Str)
  | notSupported (ns : Str)
  | badFormat (key : Str)
  | pathNotObject (seg : Str)
deriving DecidableEq

/-- The segment walk of GetConfig: starting from the fetched document,
descend through each segment, failing with a not-found error on a missing
key and with a structure error when an intermediate value is not an
object.  The requested dotted key is threaded for the error messages. -/
def walkPath : JVal → List Str → Str → Except CfgErr JVal
  | v, [], _ => .ok v
  | .obj o, p :: rest, key =>
    match lookupJ o p with
    | some v => walkPath v rest key
    | none => .error (.notFound key)
  | _, _ :: _, key => .error (.badStructure key)

/-- GetConfig, successful-fetch path: split the dotted key and walk every
segment through the fetched document. -/
def GetConfig (doc : JObj) (key : Str) : Except CfgErr JVal :=
  walkPath (.obj doc) (splitAll '.' key) key

/-- The nested write of setWebserverConfigValue: walk/create the path down
to the final segment and assign the value there, erroring when an existing
intermediate value is not an object.  (The source carries the joined path
prefix in that error message; the embedding records the offending
segment.) -/
def setPath (o : JObj) : List Str → JVal → Except CfgErr JObj
  | [], _ => .error (.badFormat [])
  | [k], v => .ok (setKey o k v)
  | k :: k2 :: rest, v =>
    match lookupJ o k with
    | none =>
      match setPath [] (k2 :: rest) v with
      | .error e => .error e
      | .ok s' => .ok (setKey o k (.obj s'))
    | some (.obj s) =>
      match setPath s (k2 :: rest) v with
      | .error e => .error e
      | .ok s' => .ok (setKey o k (.obj s'))
    | some _ => .error (.pathNotObject k)

def webserverStr : Str := "webserver".toList

/-- GetWebserverConfig, successful path: the webserver section of the full
configuration document (Go decodes a missing section as a nil, i.e. empty,
map and a non-object section as an unmarshal failure). -/
def GetWebserverConfig (doc : JObj) : Option JObj :=
  match lookupJ doc webserverStr with
  | some (.obj o) => some o
  | none => some []
  | some _ => none

/-- setWebserverConfigValue: fetch the current webserver section, write the
value at the path named by the segments after "webserver", and PUT the
modified section back (the appliance replaces the whole section, embedded
here as replacing the section in the document).  Returns the new full
document. -/
def setWebserverConfigValue (doc : JObj) (key : Str) (v : JVal) : Except CfgErr JObj :=
  match GetWebserverConfig doc with
  | none => .error (.badStructure key)
  | some w =>
    let parts := splitAll '.' key
    if parts.length < 2 then .error (.badFormat key)
    else
      match setPath w (parts.drop 1) v with
      | .error e => .error e
      | .ok w' => .ok (setKey doc webserverStr (.obj w'))

/-- SetConfig: webserver keys go through setWebserverConfigValue, any other
top-level namespace is unsupported. -/
def SetConfig (doc : JObj) (key : Str) (v : JVal) : Except CfgErr JObj :=
  let parts := splitAll '.' key
  if parts.headD [] = webserverStr then setWebserverConfigValue doc key v
  else .error (.notSupported (parts.headD []))

/-- One step of pure path resolution: project an object field, failing on
anything that is absent or not an object. -/
def stepField (acc : Option JVal) (p : Str) : Option JVal :=
  acc.bind fun w =>
    match w with
    | .obj o => lookupJ o p
    | _ => none

/-- Pure path resolution of a nested document, written as a fold: the
value a dotted path denotes, if every step goes through an object field
that is present. -/
def resolvePath (v : JVal) (parts : List Str) : Option JVal :=
  parts.foldl stepField (some v)

/-
Session cache (provider.go): getOrCreateClient keyed by url + "|" +
password.  The sequential model below captures lookup/create/insert; the
client records the constructor arguments NewPiholeClient stores.
-/

/-- The fields of a client relevant to cache identity: the endpoint and
credential it was constructed (and authenticated) with. -/
structure Client where
  baseURL : Str
  password : Str
deriving DecidableEq

/-- The cache key: url + "|" + password. -/
def cacheKey (url password : Str) : Str := url ++ '|' :: password

/-- Generic association lookup used for the client cache. -/
def lookupC : List (Str × Client) → Str → Option Client
  | [], _ => none
  | (k, c) :: rest, key => if k = key then some c else lookupC rest key

/-- getOrCreateClient, sequential view: return the cached client for the
key when present, otherwise construct a client from exactly the presented
url and password, cache it, and return it. -/
def getOrCreateClient (cache : List (Str × Client)) (url password : Str) :
    Client × List (Str × Client) :=
  match lookupC cache (cacheKey url password) with
  | some c => (c, cache)
  | none =>
    let c : Client := ⟨url, password⟩
    (c, (cacheKey url password, c) :: cache)

/-
Interleaving model of getOrCreateClient for one fixed (endpoint,
credential) pair: N goroutines each execute
  RLock; check; RUnlock; Lock; re-check; authenticate+construct; insert;
  Unlock
against the shared cache entry for that key, guarded by one
reader/writer lock.  Client instances are numbered by a construction
counter; authentication is modelled as succeeding (the claim speaks about
the clients the callers receive).  Each Step is one atomic access to the
shared state, and any interleaving of threads is allowed.
-/

/-- Program counter of one goroutine inside getOrCreateClient. -/
inductive PC where
  | start
  | rlocked
  | wwait
  | wlocked
  | created (c : Nat)
  | done (c : Nat)
deriving DecidableEq

/-- Shared state: per-thread program counters, the cache entry for the
fixed key, the reader count and writer owner of the RWMutex, the number of
authentication calls made, and the construction counter. -/
structure Sys where
  tps : List PC
  cache : Option Nat
  readers : Nat
  writer : Option Nat
  authCount : Nat
  nextId : Nat
deriving DecidableEq

/-- All N callers start outside the function with an empty cache. -/
def initSys (n : Nat) : Sys :=
  ⟨List.replicate n PC.start, none, 0, none, 0, 0⟩

/-- One interleaved step of some thread.  RLock admits readers while no
writer holds the lock; Lock requires no writer and no readers; the
double-checked read happens under the write lock. -/
inductive Step : Sys → Sys → Prop
  | rlock (s : Sys) (i : Nat) :
      s.tps[i]? = some .start → s.writer = none →
      Step s { s with tps := s.tps.set i .rlocked, readers := s.readers + 1 }
  | rhit (s : Sys) (i c : Nat) :
      s.tps[i]? = some .rlocked → s.cache = some c →
      Step s { s with tps := s.tps.set i (.done c), readers := s.readers - 1 }
  | rmiss (s : Sys) (i : Nat) :
      s.tps[i]? = some .rlocked → s.cache = none →
      Step s { s with tps := s.tps.set i .wwait, readers := s.readers - 1 }
  | wlock (s : Sys) (i : Nat) :
      s.tps[i]? = some .wwait → s.writer = none → s.readers = 0 →
      Step s { s with tps := s.tps.set i .wlocked, writer := some i }
  | whit (s : Sys) (i c : Nat) :
      s.tps[i]? = some .wlocked → s.cache = some c →
      Step s { s with tps := s.tps.set i (.done c), writer := none }
  | wauth (s : Sys) (i : Nat) :
      s.tps[i]? = some .wlocked → s.cache = none →
      Step s { s with tps := s.tps.set i (.created s.nextId), authCount := s.authCount + 1, nextId := s.nextId + 1 }
  | winsert (s : Sys) (i c : Nat) :
      s.tps[i]? = some (.created c) →
      Step s { s with tps := s.tps.set i (.done c), cache := some c, writer := none }

/-- States reachable from a given initial state by interleaved steps. -/
inductive Reach (init : Sys) : Sys → Prop
  | refl : Reach init init
  | step {s s' : Sys} : Reach init s → Step s s' → Reach init s'

/-
Spec-side definitions used by the theorems.
-/

/-- Spec-side reading of a two-field wire line: the text before the first
occurrence of the separator. -/
def beforeSep (sep : Char) (l : Str) : Str :=
  l.takeWhile (fun c => c != sep)

/-- Spec-side reading of a two-field wire line: everything after the first
occurrence of the separator. -/
def afterSep (sep : Char) (l : Str) : Str :=
  (l.dropWhile (fun c => c != sep)).drop 1

/-- Host records keyed uniquely by domain (data-model invariant). -/
def uniqueHostDomains (recs : List DNSRecord) : Prop :=
  ∀ r1 ∈ recs, ∀ r2 ∈ recs, r1.domain = r2.domain → r1 = r2

/-- Alias records keyed uniquely by domain (data-model invariant). -/
def uniqueCnameDomains (recs : List CNAMERecord) : Prop :=
  ∀ r1 ∈ recs, ∀ r2 ∈ recs, r1.domain = r2.domain → r1 = r2

instance (recs : List DNSRecord) : Decidable (uniqueHostDomains recs) :=
  inferInstanceAs (Decidable (∀ r1 ∈ recs, ∀ r2 ∈ recs, r1.domain = r2.domain → r1 = r2))

instance (recs : List CNAMERecord) : Decidable (uniqueCnameDomains recs) :=
  inferInstanceAs (Decidable (∀ r1 ∈ recs, ∀ r2 ∈ recs, r1.domain = r2.domain → r1 = r2))

/-- Classification of an authentication attempt the retry loop would move
past when budget remains: a retryable transport error, a body-read error,
a non-200 status other than 401 and 429, or an unmarshal failure. -/
def authRetryable : AuthAttempt → Bool
  | .netErr e => isRetryableError e
  | .readErr _ => true
  | .resp status _ parsed =>
    if status = 200 then
      match parsed with
      | .inl _ => true
      | .inr _ => false
    else !(status == 401 || status == 429)

/-- Test for a nested-object (map) value. -/
def isObjB : JVal → Bool
  | .obj _ => true
  | _ => false

/-- A thread holding the write lock (between Lock and Unlock). -/
def holdsW : PC → Prop
  | .wlocked => True
  | .created _ => True
  | _ => False

/-- A thread between authentication and insertion. -/
def isCreatedPC : PC → Bool
  | .created _ => true
  | _ => false

/-- Inductive invariant of the cache system: write-lock holders are
registered as the writer (hence unique); the authentication count is one
exactly when a client has been published or constructed; finished threads
hold the published client; a constructed-but-unpublished client implies an
empty cache. -/
def CacheInv (s : Sys) : Prop :=
  (∀ i : Nat, ∀ pc : PC, s.tps[i]? = some pc → holdsW pc → s.writer = some i) ∧
  (s.authCount = (if s.cache.isSome then 1 else 0) + s.tps.countP isCreatedPC) ∧
  (∀ i c : Nat, s.tps[i]? = some (PC.done c) → s.cache = some c) ∧
  (∀ i c : Nat, s.tps[i]? = some (PC.created c) → s.cache = none)

/-- States of a concrete two-caller interleaving: caller 0 misses the
cache, authenticates and publishes client 0; caller 1 then hits the cache. -/
def c3s1 : Sys := ⟨[.rlocked, .start], none, 1, none, 0, 0⟩

def c3s2 : Sys := ⟨[.wwait, .start], none, 0, none, 0, 0⟩

def c3s3 : Sys := ⟨[.wlocked, .start], none, 0, some 0, 0, 0⟩

def c3s4 : Sys := ⟨[.created 0, .start], none, 0, some 0, 1, 1⟩

def c3s5 : Sys := ⟨[.done 0, .start], some 0, 0, none, 1, 1⟩

def c3s6 : Sys := ⟨[.done 0, .rlocked], some 0, 1, none, 1, 1⟩

def c3final : Sys := ⟨[.done 0, .done 0], some 0, 0, none, 1, 1⟩

/-
Wire-format lemmas.
-/

theorem splitN2_eq_append {sep : Char} {l a b : Str} (h : splitN2 sep l = some (a, b)) :
    l = a ++ sep :: b := by
  induction l generalizing a b with
  | nil => simp [splitN2] at h
  | cons c rest ih =>
    by_cases hc : c = sep
    · subst hc
      simp [splitN2] at h
      obtain ⟨rfl, rfl⟩ := h
      simp
    · simp only [splitN2, if_neg hc] at h
      cases hrec : splitN2 sep rest with
      | none => rw [hrec] at h; simp at h
      | some p =>
        rw [hrec] at h
        simp at h
        obtain ⟨rfl, rfl⟩ := h
        simp [ih hrec]

theorem splitN2_append {sep : Char} {a : Str} (b : Str) (h : sep ∉ a) :
    splitN2 sep (a ++ sep :: b) = some (a, b) := by
  induction a with
  | nil => simp [splitN2]
  | cons c a ih =>
    simp only [List.mem_cons, not_or] at h
    simp [splitN2, Ne.symm h.1, ih h.2]

theorem parseHostLine_some {l : Str} {r : DNSRecord} (h : parseHostLine l = some r) :
    hostLine r = l := by
  simp only [parseHostLine, Option.map_eq_some'] at h
  obtain ⟨⟨a, b⟩, hsplit, rfl⟩ := h
  simpa [hostLine] using (splitN2_eq_append hsplit).symm

theorem parseCnameLine_some {l : Str} {r : CNAMERecord} (h : parseCnameLine l = some r) :
    cnameLine r = l := by
  simp only [parseCnameLine, Option.map_eq_some'] at h
  obtain ⟨⟨a, b⟩, hsplit, rfl⟩ := h
  simpa [cnameLine] using (splitN2_eq_append hsplit).symm

theorem parseHostLine_build {ip d : Str} (h : ' ' ∉ ip) :
    parseHostLine (ip ++ ' ' :: d) = some ⟨d, ip⟩ := by
  simp [parseHostLine, splitN2_append d h]

theorem parseCnameLine_build {d target : Str} (h : ',' ∉ d) :
    parseCnameLine (d ++ ',' :: target) = some ⟨d, target⟩ := by
  simp [parseCnameLine, splitN2_append target h]

theorem splitN2_eq_none {sep : Char} {l : Str} (h : sep ∉ l) :
    splitN2 sep l = none := by
  induction l with
  | nil => simp [splitN2]
  | cons c rest ih =>
    simp only [List.mem_cons, not_or] at h
    simp [splitN2, Ne.symm h.1, ih h.2]

/-- The decoder of one wire line, stated against the spec-side
before/after-first-separator reading. -/
theorem splitN2_characterization (sep : Char) (l : Str) :
    splitN2 sep l =
      if l.any (fun c => c == sep) then some (beforeSep sep l, afterSep sep l)
      else none := by
  induction l with
  | nil => simp [splitN2]
  | cons c rest ih =>
    by_cases hc : c = sep
    · subst hc
      simp [splitN2, beforeSep, afterSep]
    · simp only [splitN2, if_neg hc, ih, beforeSep, afterSep]
      by_cases hr : rest.any (fun x => x == sep)
      · simp [hr, hc, List.takeWhile_cons, List.dropWhile_cons]
      · simp [hr, hc]

theorem pathEscape_append (a b : Str) :
    pathEscape (a ++ b) = pathEscape a ++ pathEscape b := by
  induction a with
  | nil => simp [pathEscape]
  | cons c rest ih => simp [pathEscape, ih]

theorem length_escapeChar (c : Char) : (escapeChar c).length = 3 := by
  simp [escapeChar]

theorem length_pathEscape_composite (a b : Str) (sep : Char)
    (hsep : isUnescapedPathChar sep = false) :
    (pathEscape (a ++ sep :: b)).length =
      (pathEscape a).length + 3 + (pathEscape b).length := by
  rw [pathEscape_append]
  have : pathEscape (sep :: b) = escapeChar sep ++ pathEscape b := by
    simp [pathEscape, hsep]
  rw [this]
  simp [length_escapeChar]
  omega

/-- The escaped two-field composite is strictly longer than the escaped
second field alone, hence a different path segment. -/
theorem pathEscape_composite_ne (a b : Str) (sep : Char)
    (hsep : isUnescapedPathChar sep = false) :
    pathEscape (a ++ sep :: b) ≠ pathEscape b := by
  intro h
  have hlen := congrArg List.length h
  rw [length_pathEscape_composite a b sep hsep] at hlen
  omega

/-- The escaped two-field composite is strictly longer than the escaped
first field alone, hence a different path segment. -/
theorem pathEscape_composite_ne_left (a b : Str) (sep : Char)
    (hsep : isUnescapedPathChar sep = false) :
    pathEscape (a ++ sep :: b) ≠ pathEscape a := by
  intro h
  have hlen := congrArg List.length h
  rw [length_pathEscape_composite a b sep hsep] at hlen
  omega

theorem find?_append_of_none {α : Type} {p : α → Bool} {l₁ l₂ : List α}
    (h : l₁.find? p = none) : (l₁ ++ l₂).find? p = l₂.find? p := by
  induction l₁ with
  | nil => simp
  | cons a l ih =>
    cases hp : p a with
    | true => simp [List.find?, hp] at h
    | false =>
      simp only [List.cons_append, List.find?, hp] at h ⊢
      exact ih h

theorem filterMap_splitN2 {α : Type} (sep : Char) (f : Str × Str → α) (lines : List Str) :
    lines.filterMap (fun l => (splitN2 sep l).map f) =
      (lines.filter (fun l => l.any (fun c => c == sep))).map
        (fun l => f (beforeSep sep l, afterSep sep l)) := by
  induction lines with
  | nil => simp
  | cons l rest ih =>
    rw [List.filterMap_cons, List.filter_cons, splitN2_characterization]
    by_cases h : (l.any (fun c => c == sep)) = true
    · simp [h, ih]
    · simp [h, ih]

/--
C8: for every successful list call, exactly those wire lines that split
into the expected two fields produce a returned record (host records: the
text before the first space is the address and everything after it the
domain; alias records: the text before the first comma is the domain and
everything after it the target), in input order; every line lacking the
separator is dropped silently, and decoding is total, so a malformed line
never causes the list call to return an error.
-/
theorem claim_C8 (hostLines cnameLines : List Str) :
    GetDNSRecords hostLines =
      (hostLines.filter (fun l => l.any (fun c => c == ' '))).map
        (fun l => { ip := beforeSep ' ' l, domain := afterSep ' ' l }) ∧
    GetCNAMERecords cnameLines =
      (cnameLines.filter (fun l => l.any (fun c => c == ','))).map
        (fun l => { domain := beforeSep ',' l, target := afterSep ',' l }) := by
  constructor
  · exact filterMap_splitN2 ' '
      (fun p => ({ ip := p.1, domain := p.2 } : DNSRecord)) hostLines
  · exact filterMap_splitN2 ','
      (fun p => ({ domain := p.1, target := p.2 } : CNAMERecord)) cnameLines

/--
C2: delete(d) first lists the current records (the trace starts with the
GET list call); when no record with domain d exists it succeeds having
issued zero mutating calls and leaves the store unchanged; otherwise it
issues exactly one DELETE addressed by the URL-path-escaped composite key
built from the record's full current value (address plus domain for host
records, domain plus target for alias records), which differs from the
path segment the domain alone would give.  Deletion in the embedding is
total, so already-deleted is success, not an error.
-/
theorem claim_C2 (stH stC : List Str) (d : Str) :
    (match (GetDNSRecords stH).find? (fun r => r.domain == d) with
     | none =>
       DeleteDNSRecord stH d = ([getHostsReq], stH) ∧
       mutating (DeleteDNSRecord stH d).1 = []
     | some r =>
       (DeleteDNSRecord stH d).1 = [getHostsReq, deleteHostReq (hostLine r)] ∧
       mutating (DeleteDNSRecord stH d).1 = [deleteHostReq (hostLine r)] ∧
       (deleteHostReq (hostLine r)).endpoint ≠ (deleteHostReq d).endpoint) ∧
    (match (GetCNAMERecords stC).find? (fun r => r.domain == d) with
     | none =>
       DeleteCNAMERecord stC d = ([getCnamesReq], stC) ∧
       mutating (DeleteCNAMERecord stC d).1 = []
     | some r =>
       (DeleteCNAMERecord stC d).1 = [getCnamesReq, deleteCnameReq (cnameLine r)] ∧
       mutating (DeleteCNAMERecord stC d).1 = [deleteCnameReq (cnameLine r)] ∧
       (deleteCnameReq (cnameLine r)).endpoint ≠ (deleteCnameReq d).endpoint) := by
  constructor
  · cases hfind : (GetDNSRecords stH).find? (fun r => r.domain == d) with
    | none =>
      constructor
      · simp [DeleteDNSRecord, hfind]
      · simp [DeleteDNSRecord, hfind, mutating, getHostsReq]
    | some r =>
      have hdom : r.domain = d := by
        have := List.find?_some hfind
        simpa using this
      refine ⟨?_, ?_, ?_⟩
      · simp [DeleteDNSRecord, hfind]
      · simp only [DeleteDNSRecord, hfind]
        rfl
      · simp only [deleteHostReq]
        intro h
        have h1 : pathEscape (hostLine r) = pathEscape d := by
          have h2 := (List.append_right_inj hostsPath).mp h
          simpa using h2
        rw [hostLine, hdom] at h1
        exact pathEscape_composite_ne r.ip d ' ' (by decide) h1
  · cases hfind : (GetCNAMERecords stC).find? (fun r => r.domain == d) with
    | none =>
      constructor
      · simp [DeleteCNAMERecord, hfind]
      · simp [DeleteCNAMERecord, hfind, mutating, getCnamesReq]
    | some r =>
      have hdom : r.domain = d := by
        have := List.find?_some hfind
        simpa using this
      refine ⟨?_, ?_, ?_⟩
      · simp [DeleteCNAMERecord, hfind]
      · simp only [DeleteCNAMERecord, hfind]
        rfl
      · simp only [deleteCnameReq]
        intro h
        have h1 : pathEscape (cnameLine r) = pathEscape d := by
          have h2 := (List.append_right_inj cnamesPath).mp h
          simpa using h2
        rw [cnameLine, hdom] at h1
        exact pathEscape_composite_ne_left d r.target ',' (by decide) h1

/-
Upsert (claim C1).  The data model identifies a record by its domain, so
the theorems assume the reported record set holds at most one record per
domain, and that the written value is separator-free (an IPv4 address has
no space; a domain has no comma), as the wire format requires.
-/

theorem getDNS_append (a b : List Str) :
    GetDNSRecords (a ++ b) = GetDNSRecords a ++ GetDNSRecords b := by
  simp [GetDNSRecords]

theorem getCNAME_append (a b : List Str) :
    GetCNAMERecords (a ++ b) = GetCNAMERecords a ++ GetCNAMERecords b := by
  simp [GetCNAMERecords]

/-- After deleting the one record with the requested domain, no host line
with that domain remains. -/
theorem host_filter_find_none (st : List Str) (r : DNSRecord) (d : Str)
    (hu : uniqueHostDomains (GetDNSRecords st)) (hr : r ∈ GetDNSRecords st)
    (hd : r.domain = d) :
    (GetDNSRecords (st.filter (fun l => l != hostLine r))).find?
      (fun x => x.domain == d) = none := by
  rw [List.find?_eq_none]
  intro x hx
  rw [GetDNSRecords, List.mem_filterMap] at hx
  obtain ⟨l, hl, hparse⟩ := hx
  rw [List.mem_filter] at hl
  obtain ⟨hlst, hlne⟩ := hl
  simp only [beq_iff_eq]
  intro hxd
  have hxmem : x ∈ GetDNSRecords st := List.mem_filterMap.mpr ⟨l, hlst, hparse⟩
  have hxr : x = r := hu x hxmem r hr (hxd.trans hd.symm)
  subst hxr
  rw [← parseHostLine_some hparse] at hlne
  simp at hlne

/-- After deleting the one record with the requested domain, no alias line
with that domain remains. -/
theorem cname_filter_find_none (st : List Str) (r : CNAMERecord) (d : Str)
    (hu : uniqueCnameDomains (GetCNAMERecords st)) (hr : r ∈ GetCNAMERecords st)
    (hd : r.domain = d) :
    (GetCNAMERecords (st.filter (fun l => l != cnameLine r))).find?
      (fun x => x.domain == d) = none := by
  rw [List.find?_eq_none]
  intro x hx
  rw [GetCNAMERecords, List.mem_filterMap] at hx
  obtain ⟨l, hl, hparse⟩ := hx
  rw [List.mem_filter] at hl
  obtain ⟨hlst, hlne⟩ := hl
  simp only [beq_iff_eq]
  intro hxd
  have hxmem : x ∈ GetCNAMERecords st := List.mem_filterMap.mpr ⟨l, hlst, hparse⟩
  have hxr : x = r := hu x hxmem r hr (hxd.trans hd.symm)
  subst hxr
  rw [← parseCnameLine_some hparse] at hlne
  simp at hlne

/-- Appending a freshly written host line to a store with no record for
that domain makes its record the one the next list call finds. -/
theorem host_find_after_put (st1 : List Str) (d v : Str)
    (h1 : (GetDNSRecords st1).find? (fun r => r.domain == d) = none)
    (hv : ' ' ∉ v) :
    (GetDNSRecords (st1 ++ [v ++ ' ' :: d])).find? (fun r => r.domain == d) =
      some ⟨d, v⟩ := by
  rw [getDNS_append, find?_append_of_none h1]
  simp [GetDNSRecords, parseHostLine_build hv, List.find?]

/-- Appending a freshly written alias line to a store with no record for
that domain makes its record the one the next list call finds. -/
theorem cname_find_after_put (st1 : List Str) (d target : Str)
    (h1 : (GetCNAMERecords st1).find? (fun r => r.domain == d) = none)
    (hd : ',' ∉ d) :
    (GetCNAMERecords (st1 ++ [d ++ ',' :: target])).find? (fun r => r.domain == d) =
      some ⟨d, target⟩ := by
  rw [getCNAME_append, find?_append_of_none h1]
  simp [GetCNAMERecords, parseCnameLine_build hd, List.find?]

theorem createHost_spec (st : List Str) (d v : Str) (f : Nat)
    (hu : uniqueHostDomains (GetDNSRecords st)) (hv : ' ' ∉ v) :
    ∃ t st', CreateDNSRecord (f + 2) st d v = some (t, st') ∧
      ((∃ r ∈ GetDNSRecords st, r.domain = d ∧ r.ip = v) → mutating t = [] ∧ st' = st) ∧
      (∀ r ∈ GetDNSRecords st, r.domain = d → r.ip ≠ v →
        mutating t = [deleteHostReq (hostLine r), putHostReq (v ++ ' ' :: d)]) ∧
      ((∀ r ∈ GetDNSRecords st, r.domain ≠ d) →
        mutating t = [putHostReq (v ++ ' ' :: d)]) ∧
      ∃ t2, CreateDNSRecord (f + 2) st' d v = some (t2, st') ∧ mutating t2 = [] := by
  cases hfind : (GetDNSRecords st).find? (fun r => r.domain == d) with
  | none =>
    have hnone : ∀ r ∈ GetDNSRecords st, r.domain ≠ d := by
      intro r hr
      have := List.find?_eq_none.mp hfind r hr
      simpa using this
    have hcreate : CreateDNSRecord (f + 2) st d v =
        some ([getHostsReq, putHostReq (v ++ ' ' :: d)], st ++ [v ++ ' ' :: d]) := by
      simp [CreateDNSRecord, hfind]
    refine ⟨_, _, hcreate, ?_, ?_, ?_, ?_⟩
    · rintro ⟨r, hr, hrd, _⟩
      exact absurd hrd (hnone r hr)
    · intro r hr hrd _
      exact absurd hrd (hnone r hr)
    · intro _
      rfl
    · have hfind2 := host_find_after_put st d v hfind hv
      exact ⟨[getHostsReq], by simp [CreateDNSRecord, hfind2], rfl⟩
  | some r =>
    have hdom : r.domain = d := by simpa using List.find?_some hfind
    have hmem : r ∈ GetDNSRecords st := List.mem_of_find?_eq_some hfind
    by_cases hip : r.ip = v
    · have hcreate : CreateDNSRecord (f + 2) st d v = some ([getHostsReq], st) := by
        simp [CreateDNSRecord, hfind, hip]
      refine ⟨_, _, hcreate, ?_, ?_, ?_, ?_⟩
      · intro _
        exact ⟨rfl, rfl⟩
      · intro r2 hr2 hr2d hr2ip
        have he : r2 = r := hu r2 hr2 r hmem (hr2d.trans hdom.symm)
        subst he
        exact absurd hip hr2ip
      · intro hnone
        exact absurd hdom (hnone r hmem)
      · exact ⟨[getHostsReq], hcreate, rfl⟩
    · have hdel : DeleteDNSRecord st d =
          ([getHostsReq, deleteHostReq (hostLine r)],
            st.filter (fun l => l != hostLine r)) := by
        simp [DeleteDNSRecord, hfind]
      have hfind1 := host_filter_find_none st r d hu hmem hdom
      have hcreate : CreateDNSRecord (f + 2) st d v =
          some ([getHostsReq, getHostsReq, deleteHostReq (hostLine r),
              getHostsReq, putHostReq (v ++ ' ' :: d)],
            st.filter (fun l => l != hostLine r) ++ [v ++ ' ' :: d]) := by
        simp [CreateDNSRecord, hfind, hip, hdel, hfind1]
      refine ⟨_, _, hcreate, ?_, ?_, ?_, ?_⟩
      · rintro ⟨r2, hr2, hr2d, hr2ip⟩
        have he : r2 = r := hu r2 hr2 r hmem (hr2d.trans hdom.symm)
        subst he
        exact absurd hr2ip hip
      · intro r2 hr2 hr2d _
        have he : r2 = r := hu r2 hr2 r hmem (hr2d.trans hdom.symm)
        subst he
        rfl
      · intro hnone
        exact absurd hdom (hnone r hmem)
      · have hfind2 := host_find_after_put _ d v hfind1 hv
        exact ⟨[getHostsReq], by simp [CreateDNSRecord, hfind2], rfl⟩

theorem createCname_spec (st : List Str) (d v : Str) (f : Nat)
    (hu : uniqueCnameDomains (GetCNAMERecords st)) (hd : ',' ∉ d) :
    ∃ t st', CreateCNAMERecord (f + 2) st d v = some (t, st') ∧
      ((∃ r ∈ GetCNAMERecords st, r.domain = d ∧ r.target = v) →
        mutating t = [] ∧ st' = st) ∧
      (∀ r ∈ GetCNAMERecords st, r.domain = d → r.target ≠ v →
        mutating t = [deleteCnameReq (cnameLine r), putCnameReq (d ++ ',' :: v)]) ∧
      ((∀ r ∈ GetCNAMERecords st, r.domain ≠ d) →
        mutating t = [putCnameReq (d ++ ',' :: v)]) ∧
      ∃ t2, CreateCNAMERecord (f + 2) st' d v = some (t2, st') ∧ mutating t2 = [] := by
  cases hfind : (GetCNAMERecords st).find? (fun r => r.domain == d) with
  | none =>
    have hnone : ∀ r ∈ GetCNAMERecords st, r.domain ≠ d := by
      intro r hr
      have := List.find?_eq_none.mp hfind r hr
      simpa using this
    have hcreate : CreateCNAMERecord (f + 2) st d v =
        some ([getCnamesReq, putCnameReq (d ++ ',' :: v)], st ++ [d ++ ',' :: v]) := by
      simp [CreateCNAMERecord, hfind]
    refine ⟨_, _, hcreate, ?_, ?_, ?_, ?_⟩
    · rintro ⟨r, hr, hrd, _⟩
      exact absurd hrd (hnone r hr)
    · intro r hr hrd _
      exact absurd hrd (hnone r hr)
    · intro _
      rfl
    · have hfind2 := cname_find_after_put st d v hfind hd
      exact ⟨[getCnamesReq], by simp [CreateCNAMERecord, hfind2], rfl⟩
  | some r =>
    have hdom : r.domain = d := by simpa using List.find?_some hfind
    have hmem : r ∈ GetCNAMERecords st := List.mem_of_find?_eq_some hfind
    by_cases hip : r.target = v
    · have hcreate : CreateCNAMERecord (f + 2) st d v = some ([getCnamesReq], st) := by
        simp [CreateCNAMERecord, hfind, hip]
      refine ⟨_, _, hcreate, ?_, ?_, ?_, ?_⟩
      · intro _
        exact ⟨rfl, rfl⟩
      · intro r2 hr2 hr2d hr2ip
        have he : r2 = r := hu r2 hr2 r hmem (hr2d.trans hdom.symm)
        subst he
        exact absurd hip hr2ip
      · intro hnone
        exact absurd hdom (hnone r hmem)
      · exact ⟨[getCnamesReq], hcreate, rfl⟩
    · have hdel : DeleteCNAMERecord st d =
          ([getCnamesReq, deleteCnameReq (cnameLine r)],
            st.filter (fun l => l != cnameLine r)) := by
        simp [DeleteCNAMERecord, hfind]
      have hfind1 := cname_filter_find_none st r d hu hmem hdom
      have hcreate : CreateCNAMERecord (f + 2) st d v =
          some ([getCnamesReq, getCnamesReq, deleteCnameReq (cnameLine r),
              getCnamesReq, putCnameReq (d ++ ',' :: v)],
            st.filter (fun l => l != cnameLine r) ++ [d ++ ',' :: v]) := by
        simp [CreateCNAMERecord, hfind, hip, hdel, hfind1]
      refine ⟨_, _, hcreate, ?_, ?_, ?_, ?_⟩
      · rintro ⟨r2, hr2, hr2d, hr2ip⟩
        have he : r2 = r := hu r2 hr2 r hmem (hr2d.trans hdom.symm)
        subst he
        exact absurd hr2ip hip
      · intro r2 hr2 hr2d _
        have he : r2 = r := hu r2 hr2 r hmem (hr2d.trans hdom.symm)
        subst he
        rfl
      · intro hnone
        exact absurd hdom (hnone r hmem)
      · have hfind2 := cname_find_after_put _ d v hfind1 hd
        exact ⟨[getCnamesReq], by simp [CreateCNAMERecord, hfind2], rfl⟩

/--
C1: for both the host and the alias record client, against a reported
record set that holds at most one record per domain (the data model keys
records by domain) and a separator-free written value, upsert(d, v) with
sufficient fuel succeeds, and: it issues no mutating request when a record
(d, v) already exists; exactly one DELETE of the old composite key followed
by exactly one PUT creating (d, v), in that order, when the record for d
has a different value; exactly one PUT when no record for d exists; and
running the same upsert again from the resulting state issues zero
mutating requests, so identical upserts produce one mutation then zero.
-/
theorem claim_C1 (stH stC : List Str) (dH vH dC vC : Str) (fuel : Nat)
    (huH : uniqueHostDomains (GetDNSRecords stH))
    (huC : uniqueCnameDomains (GetCNAMERecords stC))
    (hvH : ' ' ∉ vH) (hdC : ',' ∉ dC) (hf : 2 ≤ fuel) :
    (∃ t st', CreateDNSRecord fuel stH dH vH = some (t, st') ∧
      ((∃ r ∈ GetDNSRecords stH, r.domain = dH ∧ r.ip = vH) →
        mutating t = [] ∧ st' = stH) ∧
      (∀ r ∈ GetDNSRecords stH, r.domain = dH → r.ip ≠ vH →
        mutating t = [deleteHostReq (hostLine r), putHostReq (vH ++ ' ' :: dH)]) ∧
      ((∀ r ∈ GetDNSRecords stH, r.domain ≠ dH) →
        mutating t = [putHostReq (vH ++ ' ' :: dH)]) ∧
      ∃ t2, CreateDNSRecord fuel st' dH vH = some (t2, st') ∧ mutating t2 = []) ∧
    (∃ t st', CreateCNAMERecord fuel stC dC vC = some (t, st') ∧
      ((∃ r ∈ GetCNAMERecords stC, r.domain = dC ∧ r.target = vC) →
        mutating t = [] ∧ st' = stC) ∧
      (∀ r ∈ GetCNAMERecords stC, r.domain = dC → r.target ≠ vC →
        mutating t = [deleteCnameReq (cnameLine r), putCnameReq (dC ++ ',' :: vC)]) ∧
      ((∀ r ∈ GetCNAMERecords stC, r.domain ≠ dC) →
        mutating t = [putCnameReq (dC ++ ',' :: vC)]) ∧
      ∃ t2, CreateCNAMERecord fuel st' dC vC = some (t2, st') ∧ mutating t2 = []) := by
  obtain ⟨f, rfl⟩ : ∃ f, fuel = f + 2 := ⟨fuel - 2, by omega⟩
  exact ⟨createHost_spec stH dH vH f huH hvH, createCname_spec stC dC vC f huC hdC⟩

/--
Witness for C1 at concrete inputs: the host store starts with a record for
a.example.com at 10.0.0.5 and upsert writes 10.0.0.6 (the value-change
case), the alias store starts empty and upsert writes a fresh alias (the
fresh-create case).
-/
theorem claim_C1_witness :
    uniqueHostDomains (GetDNSRecords ["10.0.0.5 a.example.com".toList]) ∧
    uniqueCnameDomains (GetCNAMERecords []) ∧
    ' ' ∉ "10.0.0.6".toList ∧ ',' ∉ "www.example.com".toList ∧ 2 ≤ 2 ∧
    ((∃ t st', CreateDNSRecord 2 ["10.0.0.5 a.example.com".toList]
        "a.example.com".toList "10.0.0.6".toList = some (t, st') ∧
      ((∃ r ∈ GetDNSRecords ["10.0.0.5 a.example.com".toList],
          r.domain = "a.example.com".toList ∧ r.ip = "10.0.0.6".toList) →
        mutating t = [] ∧ st' = ["10.0.0.5 a.example.com".toList]) ∧
      (∀ r ∈ GetDNSRecords ["10.0.0.5 a.example.com".toList],
        r.domain = "a.example.com".toList → r.ip ≠ "10.0.0.6".toList →
        mutating t = [deleteHostReq (hostLine r),
          putHostReq ("10.0.0.6".toList ++ ' ' :: "a.example.com".toList)]) ∧
      ((∀ r ∈ GetDNSRecords ["10.0.0.5 a.example.com".toList],
          r.domain ≠ "a.example.com".toList) →
        mutating t = [putHostReq ("10.0.0.6".toList ++ ' ' :: "a.example.com".toList)]) ∧
      ∃ t2, CreateDNSRecord 2 st' "a.example.com".toList "10.0.0.6".toList =
          some (t2, st') ∧ mutating t2 = []) ∧
    (∃ t st', CreateCNAMERecord 2 [] "www.example.com".toList "example.com".toList =
        some (t, st') ∧
      ((∃ r ∈ GetCNAMERecords ([] : List Str), r.domain = "www.example.com".toList ∧
          r.target = "example.com".toList) → mutating t = [] ∧ st' = []) ∧
      (∀ r ∈ GetCNAMERecords ([] : List Str), r.domain = "www.example.com".toList →
        r.target ≠ "example.com".toList →
        mutating t = [deleteCnameReq (cnameLine r),
          putCnameReq ("www.example.com".toList ++ ',' :: "example.com".toList)]) ∧
      ((∀ r ∈ GetCNAMERecords ([] : List Str), r.domain ≠ "www.example.com".toList) →
        mutating t = [putCnameReq ("www.example.com".toList ++ ',' :: "example.com".toList)]) ∧
      ∃ t2, CreateCNAMERecord 2 st' "www.example.com".toList "example.com".toList =
          some (t2, st') ∧ mutating t2 = [])) :=
  ⟨by decide, by decide, by decide, by decide, by decide,
    claim_C1 ["10.0.0.5 a.example.com".toList] [] "a.example.com".toList
      "10.0.0.6".toList "www.example.com".toList "example.com".toList 2
      (by decide) (by decide) (by decide) (by decide) (by decide)⟩

/-
Retry executor lemmas (claims C4 and C5).
-/

theorem requestRun_sleeps (net : Nat → Outcome) (retries backoff : Nat) :
    ∀ fuel attempt lastErr ss n res,
      requestRun net retries backoff attempt fuel lastErr = (ss, n, res) →
      ss = ((List.range' attempt n).filter (fun i => decide (0 < i))).map
        (fun i => i * i * backoff) := by
  intro fuel
  induction fuel with
  | zero =>
    intro attempt lastErr ss n res h
    simp [requestRun] at h
    obtain ⟨rfl, rfl, -⟩ := h
    simp
  | succ fuel ih =>
    intro attempt lastErr ss n res h
    cases hnet : net attempt with
    | resp status =>
      simp only [requestRun, hnet, Prod.mk.injEq] at h
      obtain ⟨rfl, rfl, -⟩ := h
      rw [List.range'_one]
      by_cases h0 : 0 < attempt
      · simp [h0]
      · simp [h0]
    | err e =>
      by_cases hc : (isRetryableError e = true) ∧ attempt < retries
      · rcases hrec : requestRun net retries backoff (attempt + 1) fuel e with ⟨ss', n', res'⟩
        simp only [requestRun, hnet, if_pos hc, hrec, Prod.mk.injEq] at h
        obtain ⟨rfl, rfl, -⟩ := h
        rw [List.range'_succ, List.filter_cons]
        have := ih (attempt + 1) e ss' n' res' hrec
        by_cases h0 : 0 < attempt
        · simp [h0, this]
        · simp [h0, this]
      · simp only [requestRun, hnet, if_neg hc] at h
        obtain ⟨rfl, rfl, -⟩ := h
        rw [List.range'_one]
        by_cases h0 : 0 < attempt
        · simp [h0]
        · simp [h0]

theorem requestRun_count (net : Nat → Outcome) (retries backoff : Nat) :
    ∀ fuel attempt lastErr ss n res, 1 ≤ fuel →
      requestRun net retries backoff attempt fuel lastErr = (ss, n, res) →
      1 ≤ n ∧ n ≤ fuel := by
  intro fuel
  induction fuel with
  | zero => intro attempt lastErr ss n res h1; omega
  | succ fuel ih =>
    intro attempt lastErr ss n res _ h
    cases hnet : net attempt with
    | resp status =>
      simp only [requestRun, hnet, Prod.mk.injEq] at h
      obtain ⟨-, rfl, -⟩ := h
      omega
    | err e =>
      by_cases hc : (isRetryableError e = true) ∧ attempt < retries
      · rcases hrec : requestRun net retries backoff (attempt + 1) fuel e with ⟨ss', n', res'⟩
        simp only [requestRun, hnet, if_pos hc, hrec, Prod.mk.injEq] at h
        obtain ⟨-, rfl, -⟩ := h
        rcases Nat.eq_zero_or_pos fuel with hf | hf
        · subst hf
          simp [requestRun] at hrec
          omega
        · have := ih (attempt + 1) e ss' n' res' hf hrec
          omega
      · simp only [requestRun, hnet, if_neg hc] at h
        obtain ⟨-, rfl, -⟩ := h
        omega

theorem requestRun_prefix (net : Nat → Outcome) (retries backoff : Nat) :
    ∀ fuel attempt lastErr ss n res,
      requestRun net retries backoff attempt fuel lastErr = (ss, n, res) →
      ∀ k, k + 1 < n → ∃ e, net (attempt + k) = .err e ∧ isRetryableError e = true := by
  intro fuel
  induction fuel with
  | zero =>
    intro attempt lastErr ss n res h k hk
    simp [requestRun] at h
    omega
  | succ fuel ih =>
    intro attempt lastErr ss n res h k hk
    cases hnet : net attempt with
    | resp status =>
      simp only [requestRun, hnet, Prod.mk.injEq] at h
      obtain ⟨-, rfl, -⟩ := h
      omega
    | err e =>
      by_cases hc : (isRetryableError e = true) ∧ attempt < retries
      · rcases hrec : requestRun net retries backoff (attempt + 1) fuel e with ⟨ss', n', res'⟩
        simp only [requestRun, hnet, if_pos hc, hrec, Prod.mk.injEq] at h
        obtain ⟨-, rfl, -⟩ := h
        cases k with
        | zero => exact ⟨e, by simpa using hnet, hc.1⟩
        | succ j =>
          have := ih (attempt + 1) e ss' n' res' hrec j (by omega)
          obtain ⟨e', he', hr'⟩ := this
          exact ⟨e', by rw [show attempt + (j + 1) = attempt + 1 + j by omega]; exact he', hr'⟩
      · simp only [requestRun, hnet, if_neg hc] at h
        obtain ⟨-, rfl, -⟩ := h
        omega

theorem requestRun_result (net : Nat → Outcome) (retries backoff : Nat) :
    ∀ fuel attempt lastErr ss n res, attempt + fuel = retries + 1 → 1 ≤ fuel →
      requestRun net retries backoff attempt fuel lastErr = (ss, n, res) →
      (match net (attempt + n - 1) with
       | .resp status => res = Sum.inr status
       | .err e => res = Sum.inl e ∧
           (isRetryableError e = true → attempt + n = retries + 1)) := by
  intro fuel
  induction fuel with
  | zero => intro attempt lastErr ss n res hsum h1; omega
  | succ fuel ih =>
    intro attempt lastErr ss n res hsum _ h
    cases hnet : net attempt with
    | resp status =>
      simp only [requestRun, hnet, Prod.mk.injEq] at h
      obtain ⟨-, rfl, rfl⟩ := h
      have hidx : attempt + 1 - 1 = attempt := by omega
      rw [hidx, hnet]
    | err e =>
      by_cases hc : (isRetryableError e = true) ∧ attempt < retries
      · rcases hrec : requestRun net retries backoff (attempt + 1) fuel e with ⟨ss', n', res'⟩
        simp only [requestRun, hnet, if_pos hc, hrec, Prod.mk.injEq] at h
        obtain ⟨-, rfl, rfl⟩ := h
        have hfuel : 1 ≤ fuel := by omega
        have hn' := (requestRun_count net retries backoff fuel (attempt + 1) e ss' n' res'
          hfuel hrec).1
        have hres := ih (attempt + 1) e ss' n' res' (by omega) hfuel hrec
        have hidx : attempt + (n' + 1) - 1 = attempt + 1 + n' - 1 := by omega
        rw [hidx]
        cases hnet2 : net (attempt + 1 + n' - 1) with
        | resp status =>
          rw [hnet2] at hres
          exact hres
        | err e2 =>
          rw [hnet2] at hres
          exact ⟨hres.1, fun hr => by have := hres.2 hr; omega⟩
      · simp only [requestRun, hnet, if_neg hc] at h
        obtain ⟨-, rfl, rfl⟩ := h
        have hidx : attempt + 1 - 1 = attempt := by omega
        rw [hidx, hnet]
        refine ⟨rfl, fun hr => ?_⟩
        rcases Decidable.not_and_iff_or_not.mp hc with hbad | hge
        · exact absurd hr hbad
        · omega

/--
C4: makeRequestWithRetry performs at most retries + 1 attempts (and at
least one); every attempt before the last failed with a transport error
whose text contains one of the retryable substrings; the outcome of the
last attempt is what the caller receives: an HTTP response of any status
code is returned as-is without retry, a non-retryable transport error is
returned immediately, and a retryable transport error is returned only
with the budget exhausted — so when every attempt fails, the most recent
error is the one returned.
-/
theorem claim_C4 (net : Nat → Outcome) (retries backoff : Nat) :
    ∃ ss n res, makeRequestWithRetry net retries backoff = (ss, n, res) ∧
      1 ≤ n ∧ n ≤ retries + 1 ∧
      (∀ k, k + 1 < n → ∃ e, net k = .err e ∧ isRetryableError e = true) ∧
      (match net (n - 1) with
       | .resp status => res = Sum.inr status
       | .err e => res = Sum.inl e ∧
           (isRetryableError e = true → n = retries + 1)) := by
  rcases hrun : requestRun net retries backoff 0 (retries + 1) [] with ⟨ss, n, res⟩
  have hcount := requestRun_count net retries backoff (retries + 1) 0 [] ss n res
    (by omega) hrun
  have hpre := requestRun_prefix net retries backoff (retries + 1) 0 [] ss n res hrun
  have hres := requestRun_result net retries backoff (retries + 1) 0 [] ss n res
    (by omega) (by omega) hrun
  refine ⟨ss, n, res, hrun, hcount.1, hcount.2, ?_, ?_⟩
  · intro k hk
    simpa using hpre k hk
  · simpa using hres

/-- Witness for C4 at a concrete network: a retryable timeout, then a
connection refusal, then a 503 response, with budget 3. -/
theorem claim_C4_witness :
    ∃ ss n res,
      makeRequestWithRetry
        (fun k => if k = 0 then .err "dial: timeout".toList
          else if k = 1 then .err "connection refused by peer".toList
          else .resp 503) 3 50 = (ss, n, res) ∧
      1 ≤ n ∧ n ≤ 3 + 1 ∧
      (∀ k, k + 1 < n → ∃ e,
        (fun k => if k = 0 then Outcome.err "dial: timeout".toList
          else if k = 1 then Outcome.err "connection refused by peer".toList
          else Outcome.resp 503) k = .err e ∧ isRetryableError e = true) ∧
      (match (fun k => if k = 0 then Outcome.err "dial: timeout".toList
          else if k = 1 then Outcome.err "connection refused by peer".toList
          else Outcome.resp 503) (n - 1) with
       | .resp status => res = Sum.inr status
       | .err e => res = Sum.inl e ∧
           (isRetryableError e = true → n = 3 + 1)) :=
  claim_C4
    (fun k => if k = 0 then .err "dial: timeout".toList
      else if k = 1 then .err "connection refused by peer".toList
      else .resp 503) 3 50

/-
Authentication loop lemmas (claims C5 and C6).
-/

theorem sleeps_one (attempt backoff : Nat) :
    (if 0 < attempt then [attempt * attempt * backoff] else []) =
      ((List.range' attempt 1).filter (fun i => decide (0 < i))).map
        (fun i => i * i * backoff) := by
  rw [List.range'_one]
  by_cases h0 : 0 < attempt
  · simp [h0]
  · simp [h0]

theorem sleeps_cons (attempt n' backoff : Nat) (tail : List Nat)
    (htail : tail = ((List.range' (attempt + 1) n').filter (fun i => decide (0 < i))).map
      (fun i => i * i * backoff)) :
    (if 0 < attempt then [attempt * attempt * backoff] else []) ++ tail =
      ((List.range' attempt (n' + 1)).filter (fun i => decide (0 < i))).map
        (fun i => i * i * backoff) := by
  rw [List.range'_succ, List.filter_cons]
  by_cases h0 : 0 < attempt
  · simp [h0, htail]
  · simp [h0, htail]

theorem authRun_spec (orc : Nat → AuthAttempt) (retries backoff : Nat) :
    ∀ fuel attempt lastErr ss n res,
      attempt + fuel = retries + 1 → 1 ≤ fuel →
      authRun orc retries backoff attempt fuel lastErr = (ss, n, res) →
      (1 ≤ n ∧ n ≤ fuel) ∧
      (∀ k, k + 1 < n → authRetryable (orc (attempt + k)) = true) ∧
      (match orc (attempt + n - 1) with
       | .netErr e => res = .failure (authTransportMsg e) ∧
           (isRetryableError e = true → attempt + n = retries + 1)
       | .readErr e => res = .failure (authReadMsg e) ∧ attempt + n = retries + 1
       | .resp status body parsed =>
         if status = 200 then
           (match parsed with
            | .inl je => res = .failure (authUnmarshalMsg je body) ∧
                attempt + n = retries + 1
            | .inr ab =>
              if ab.valid then res = .success ab.sid ab.csrf
              else res = .failure (authInvalidMsg ab.message))
         else
           res = .failure (authStatusMsg status body) ∧
             (status ≠ 401 → status ≠ 429 → attempt + n = retries + 1)) ∧
      ss = ((List.range' attempt n).filter (fun i => decide (0 < i))).map
        (fun i => i * i * backoff) := by
  intro fuel
  induction fuel with
  | zero => intro attempt lastErr ss n res hsum h1; omega
  | succ fuel ih =>
    intro attempt lastErr ss n res hsum _ h
    cases horc : orc attempt with
    | netErr e =>
      by_cases hc : (isRetryableError e = true) ∧ attempt < retries
      · rcases hrec : authRun orc retries backoff (attempt + 1) fuel e with ⟨ss', n', res'⟩
        simp only [authRun, horc, if_pos hc, hrec, Prod.mk.injEq] at h
        obtain ⟨rfl, rfl, rfl⟩ := h
        obtain ⟨⟨hn1, hn2⟩, hpre, hres, hss⟩ :=
          ih (attempt + 1) e ss' n' res' (by omega) (by omega) hrec
        refine ⟨by omega, ?_, ?_, sleeps_cons attempt n' backoff ss' hss⟩
        · intro k hk
          cases k with
          | zero => simpa [authRetryable, horc] using hc.1
          | succ j =>
            have := hpre j (by omega)
            rw [show attempt + (j + 1) = attempt + 1 + j by omega]
            exact this
        · rw [show attempt + (n' + 1) - 1 = attempt + 1 + n' - 1 by omega]
          cases horc2 : orc (attempt + 1 + n' - 1) with
          | netErr e2 =>
            rw [horc2] at hres
            exact ⟨hres.1, fun hr => by have := hres.2 hr; omega⟩
          | readErr e2 =>
            rw [horc2] at hres
            exact ⟨hres.1, by omega⟩
          | resp status body parsed =>
            rw [horc2] at hres
            by_cases hs : status = 200
            · simp only [if_pos hs] at hres ⊢
              cases parsed with
              | inl je => exact ⟨hres.1, by omega⟩
              | inr ab => exact hres
            · simp only [if_neg hs] at hres ⊢
              exact ⟨hres.1, fun h1 h2 => by have := hres.2 h1 h2; omega⟩
      · simp only [authRun, horc, if_neg hc, Prod.mk.injEq] at h
        obtain ⟨rfl, rfl, rfl⟩ := h
        refine ⟨by omega, by omega, ?_, sleeps_one attempt backoff⟩
        rw [show attempt + 1 - 1 = attempt by omega, horc]
        refine ⟨rfl, fun hr => ?_⟩
        rcases Decidable.not_and_iff_or_not.mp hc with hbad | hge
        · exact absurd hr hbad
        · omega
    | readErr e =>
      by_cases hc : attempt < retries
      · rcases hrec : authRun orc retries backoff (attempt + 1) fuel e with ⟨ss', n', res'⟩
        simp only [authRun, horc, if_pos hc, hrec, Prod.mk.injEq] at h
        obtain ⟨rfl, rfl, rfl⟩ := h
        obtain ⟨⟨hn1, hn2⟩, hpre, hres, hss⟩ :=
          ih (attempt + 1) e ss' n' res' (by omega) (by omega) hrec
        refine ⟨by omega, ?_, ?_, sleeps_cons attempt n' backoff ss' hss⟩
        · intro k hk
          cases k with
          | zero => simp [authRetryable, horc]
          | succ j =>
            have := hpre j (by omega)
            rw [show attempt + (j + 1) = attempt + 1 + j by omega]
            exact this
        · rw [show attempt + (n' + 1) - 1 = attempt + 1 + n' - 1 by omega]
          cases horc2 : orc (attempt + 1 + n' - 1) with
          | netErr e2 =>
            rw [horc2] at hres
            exact ⟨hres.1, fun hr => by have := hres.2 hr; omega⟩
          | readErr e2 =>
            rw [horc2] at hres
            exact ⟨hres.1, by omega⟩
          | resp status body parsed =>
            rw [horc2] at hres
            by_cases hs : status = 200
            · simp only [if_pos hs] at hres ⊢
              cases parsed with
              | inl je => exact ⟨hres.1, by omega⟩
              | inr ab => exact hres
            · simp only [if_neg hs] at hres ⊢
              exact ⟨hres.1, fun h1 h2 => by have := hres.2 h1 h2; omega⟩
      · simp only [authRun, horc, if_neg hc, Prod.mk.injEq] at h
        obtain ⟨rfl, rfl, rfl⟩ := h
        refine ⟨by omega, by omega, ?_, sleeps_one attempt backoff⟩
        rw [show attempt + 1 - 1 = attempt by omega, horc]
        exact ⟨rfl, by omega⟩
    | resp status body parsed =>
      by_cases hs : status = 200
      · cases parsed with
        | inl je =>
          by_cases hc : attempt < retries
          · rcases hrec : authRun orc retries backoff (attempt + 1) fuel
                (authUnmarshalMsg je body) with ⟨ss', n', res'⟩
            simp only [authRun, horc, hs, if_pos hc, hrec, Prod.mk.injEq,
              ne_eq, not_true_eq_false, if_false, reduceIte] at h
            obtain ⟨rfl, rfl, rfl⟩ := h
            obtain ⟨⟨hn1, hn2⟩, hpre, hres, hss⟩ :=
              ih (attempt + 1) (authUnmarshalMsg je body) ss' n' res'
                (by omega) (by omega) hrec
            refine ⟨by omega, ?_, ?_, sleeps_cons attempt n' backoff ss' hss⟩
            · intro k hk
              cases k with
              | zero => simp [authRetryable, horc, hs]
              | succ j =>
                have := hpre j (by omega)
                rw [show attempt + (j + 1) = attempt + 1 + j by omega]
                exact this
            · rw [show attempt + (n' + 1) - 1 = attempt + 1 + n' - 1 by omega]
              cases horc2 : orc (attempt + 1 + n' - 1) with
              | netErr e2 =>
                rw [horc2] at hres
                exact ⟨hres.1, fun hr => by have := hres.2 hr; omega⟩
              | readErr e2 =>
                rw [horc2] at hres
                exact ⟨hres.1, by omega⟩
              | resp status2 body2 parsed2 =>
                rw [horc2] at hres
                by_cases hs2 : status2 = 200
                · simp only [if_pos hs2] at hres ⊢
                  cases parsed2 with
                  | inl je2 => exact ⟨hres.1, by omega⟩
                  | inr ab2 => exact hres
                · simp only [if_neg hs2] at hres ⊢
                  exact ⟨hres.1, fun h1 h2 => by have := hres.2 h1 h2; omega⟩
          · simp only [authRun, horc, hs, if_neg hc, Prod.mk.injEq,
              ne_eq, not_true_eq_false, if_false, reduceIte] at h
            obtain ⟨rfl, rfl, rfl⟩ := h
            refine ⟨by omega, by omega, ?_, sleeps_one attempt backoff⟩
            rw [show attempt + 1 - 1 = attempt by omega, horc]
            simp only [hs, if_pos rfl]
            exact ⟨by trivial, by omega⟩
        | inr ab =>
          by_cases hv : ab.valid = true
          · simp only [authRun, horc, hs, Prod.mk.injEq, ne_eq, not_true_eq_false,
              if_false, reduceIte, hv] at h
            obtain ⟨rfl, rfl, rfl⟩ := h
            refine ⟨by omega, by omega, ?_, sleeps_one attempt backoff⟩
            rw [show attempt + 1 - 1 = attempt by omega, horc]
            simp [hs, hv]
          · simp only [authRun, horc, hs, Prod.mk.injEq, ne_eq, not_true_eq_false,
              if_false, reduceIte, hv] at h
            obtain ⟨rfl, rfl, rfl⟩ := h
            refine ⟨by omega, by omega, ?_, sleeps_one attempt backoff⟩
            rw [show attempt + 1 - 1 = attempt by omega, horc]
            simp [hs, hv]
      · by_cases h4 : status = 401 ∨ status = 429
        · simp only [authRun, horc, Prod.mk.injEq, ne_eq, hs, not_false_eq_true,
            if_true, reduceIte, if_pos h4] at h
          obtain ⟨rfl, rfl, rfl⟩ := h
          refine ⟨by omega, by omega, ?_, sleeps_one attempt backoff⟩
          rw [show attempt + 1 - 1 = attempt by omega, horc]
          simp only [if_neg hs]
          refine ⟨by trivial, fun h1 h2 => ?_⟩
          rcases h4 with h4 | h4
          · exact absurd h4 h1
          · exact absurd h4 h2
        · by_cases hc : attempt < retries
          · rcases hrec : authRun orc retries backoff (attempt + 1) fuel
                (authStatusMsg status body) with ⟨ss', n', res'⟩
            simp only [authRun, horc, Prod.mk.injEq, ne_eq, hs, not_false_eq_true,
              if_true, reduceIte, if_neg h4, if_pos hc, hrec] at h
            obtain ⟨rfl, rfl, rfl⟩ := h
            obtain ⟨⟨hn1, hn2⟩, hpre, hres, hss⟩ :=
              ih (attempt + 1) (authStatusMsg status body) ss' n' res'
                (by omega) (by omega) hrec
            refine ⟨by omega, ?_, ?_, sleeps_cons attempt n' backoff ss' hss⟩
            · intro k hk
              cases k with
              | zero =>
                simp only [not_or] at h4
                simp [authRetryable, horc, hs, h4.1, h4.2]
              | succ j =>
                have := hpre j (by omega)
                rw [show attempt + (j + 1) = attempt + 1 + j by omega]
                exact this
            · rw [show attempt + (n' + 1) - 1 = attempt + 1 + n' - 1 by omega]
              cases horc2 : orc (attempt + 1 + n' - 1) with
              | netErr e2 =>
                rw [horc2] at hres
                exact ⟨hres.1, fun hr => by have := hres.2 hr; omega⟩
              | readErr e2 =>
                rw [horc2] at hres
                exact ⟨hres.1, by omega⟩
              | resp status2 body2 parsed2 =>
                rw [horc2] at hres
                by_cases hs2 : status2 = 200
                · simp only [if_pos hs2] at hres ⊢
                  cases parsed2 with
                  | inl je2 => exact ⟨hres.1, by omega⟩
                  | inr ab2 => exact hres
                · simp only [if_neg hs2] at hres ⊢
                  exact ⟨hres.1, fun h1 h2 => by have := hres.2 h1 h2; omega⟩
          · simp only [authRun, horc, Prod.mk.injEq, ne_eq, hs, not_false_eq_true,
              if_true, reduceIte, if_neg h4, if_neg hc] at h
            obtain ⟨rfl, rfl, rfl⟩ := h
            refine ⟨by omega, by omega, ?_, sleeps_one attempt backoff⟩
            rw [show attempt + 1 - 1 = attempt by omega, horc]
            simp only [if_neg hs]
            exact ⟨by trivial, fun _ _ => by omega⟩

theorem filter_pos_range (n : Nat) (h : 1 ≤ n) :
    (List.range' 0 n).filter (fun i => decide (0 < i)) = List.range' 1 (n - 1) := by
  obtain ⟨m, rfl⟩ : ∃ m, n = m + 1 := ⟨n - 1, by omega⟩
  rw [List.range'_succ, List.filter_cons]
  have hall : ∀ x ∈ List.range' (0 + 1) m, (fun i => decide (0 < i)) x = true := by
    intro x hx
    rw [List.mem_range'] at hx
    simp
    omega
  rw [List.filter_eq_self.mpr hall]
  simp

/--
C5: in both the authentication retry loop and the request retry loop, the
first attempt is made with no preceding sleep and the k-th re-attempt is
preceded by a sleep of exactly k² × backoffBase (the sleep list is the map
of k² × base over k = 1 .. attempts−1); concretely, with retries = 3 and
backoffBase = 50, two retryable failures followed by a success on the 3rd
attempt sleep 1×50 and then 4×50 before that final attempt, in both loops.
-/
theorem claim_C5 (net : Nat → Outcome) (orc : Nat → AuthAttempt) (retries backoff : Nat) :
    (∀ ss n res, makeRequestWithRetry net retries backoff = (ss, n, res) →
      ss = (List.range' 1 (n - 1)).map (fun k => k * k * backoff)) ∧
    (∀ ss n res, authenticateWithRetry orc retries backoff = (ss, n, res) →
      ss = (List.range' 1 (n - 1)).map (fun k => k * k * backoff)) ∧
    makeRequestWithRetry
      (fun k => if k < 2 then .err "i/o timeout".toList else .resp 200) 3 50 =
      ([1 * 1 * 50, 2 * 2 * 50], 3, Sum.inr 200) ∧
    authenticateWithRetry
      (fun k => if k < 2 then .netErr "read: connection reset by peer".toList
        else .resp 200 "ok".toList
          (Sum.inr ⟨true, "sid0".toList, "csrf0".toList, []⟩)) 3 50 =
      ([1 * 1 * 50, 2 * 2 * 50], 3,
        .success "sid0".toList "csrf0".toList) := by
  refine ⟨?_, ?_, by decide, by decide⟩
  · intro ss n res h
    have hs := requestRun_sleeps net retries backoff (retries + 1) 0 [] ss n res h
    have hn := (requestRun_count net retries backoff (retries + 1) 0 [] ss n res
      (by omega) h).1
    rw [hs, filter_pos_range n hn]
  · intro ss n res h
    obtain ⟨⟨hn, -⟩, -, -, hsleeps⟩ := authRun_spec orc retries backoff (retries + 1) 0 []
      ss n res (by omega) (by omega) h
    rw [hsleeps, filter_pos_range n hn]

/-- Witness for C5: its general clauses applied to the concrete runs of
its own concrete clauses. -/
theorem claim_C5_witness :
    (∀ ss n res,
      makeRequestWithRetry
        (fun k => if k < 2 then .err "i/o timeout".toList else .resp 200) 3 50 =
        (ss, n, res) →
      ss = (List.range' 1 (n - 1)).map (fun k => k * k * 50)) ∧
    makeRequestWithRetry
      (fun k => if k < 2 then .err "i/o timeout".toList else .resp 200) 3 50 =
      ([1 * 1 * 50, 2 * 2 * 50], 3, Sum.inr 200) :=
  ⟨(claim_C5 (fun k => if k < 2 then .err "i/o timeout".toList else .resp 200)
      (fun _ => .netErr []) 3 50).1,
    (claim_C5 (fun k => if k < 2 then .err "i/o timeout".toList else .resp 200)
      (fun _ => .netErr []) 3 50).2.2.1⟩

/--
C6 counterexample: with retries = 1, a server that always answers HTTP 500
is retried once by authenticateWithRetry (two attempts in total), so a
non-2xx authentication response other than 401/429 is not surfaced without
retry as the claim states.
-/
theorem claim_C6_counterexample :
    (authenticateWithRetry (fun _ => .resp 500 "boom".toList (Sum.inl [])) 1 10).2.1 = 2 ∧
    ¬ (authenticateWithRetry
        (fun _ => .resp 500 "boom".toList (Sum.inl [])) 1 10).2.1 = 1 ∧
    (authenticateWithRetry (fun _ => .resp 500 "boom".toList (Sum.inl [])) 1 10).2.2 =
      .failure (authStatusMsg 500 "boom".toList) := by
  decide

/--
C6 amended: during authentication, an invalid-credential response (HTTP
401, or a 200 whose session is invalid) and a rate-limited (HTTP 429)
response are surfaced to the caller immediately and are never retried
(they are never classified retryable, so no attempt beyond one that
produced them is made); every other non-200 response is surfaced with its
status code and response body, but only after being retried while budget
remains — it is returned exactly when the attempt budget is exhausted.
-/
theorem claim_C6_amended (orc : Nat → AuthAttempt) (retries backoff : Nat) :
    ∃ ss n res, authenticateWithRetry orc retries backoff = (ss, n, res) ∧
      1 ≤ n ∧ n ≤ retries + 1 ∧
      (∀ k, k + 1 < n → authRetryable (orc k) = true) ∧
      (match orc (n - 1) with
       | .netErr e => res = .failure (authTransportMsg e) ∧
           (isRetryableError e = true → n = retries + 1)
       | .readErr e => res = .failure (authReadMsg e) ∧ n = retries + 1
       | .resp status body parsed =>
         if status = 200 then
           (match parsed with
            | .inl je => res = .failure (authUnmarshalMsg je body) ∧ n = retries + 1
            | .inr ab =>
              if ab.valid then res = .success ab.sid ab.csrf
              else res = .failure (authInvalidMsg ab.message))
         else
           res = .failure (authStatusMsg status body) ∧
             (status ≠ 401 → status ≠ 429 → n = retries + 1)) := by
  rcases hrun : authRun orc retries backoff 0 (retries + 1) [] with ⟨ss, n, res⟩
  obtain ⟨⟨hn1, hn2⟩, hpre, hres, -⟩ := authRun_spec orc retries backoff (retries + 1) 0 []
    ss n res (by omega) (by omega) hrun
  refine ⟨ss, n, res, hrun, hn1, hn2, ?_, ?_⟩
  · intro k hk
    simpa using hpre k hk
  · simpa using hres

/-- Witness for the amended C6: a 401 response on the very first attempt
with budget 3 is surfaced at once. -/
theorem claim_C6_witness :
    ∃ ss n res,
      authenticateWithRetry (fun _ => .resp 401 "denied".toList (Sum.inl [])) 3 10 =
        (ss, n, res) ∧
      1 ≤ n ∧ n ≤ 3 + 1 ∧
      (∀ k, k + 1 < n →
        authRetryable ((fun _ => AuthAttempt.resp 401 "denied".toList (Sum.inl [])) k) =
          true) ∧
      (match (fun _ => AuthAttempt.resp 401 "denied".toList (Sum.inl [])) (n - 1) with
       | .netErr e => res = .failure (authTransportMsg e) ∧
           (isRetryableError e = true → n = 3 + 1)
       | .readErr e => res = .failure (authReadMsg e) ∧ n = 3 + 1
       | .resp status body parsed =>
         if status = 200 then
           (match parsed with
            | .inl je => res = .failure (authUnmarshalMsg je body) ∧ n = 3 + 1
            | .inr ab =>
              if ab.valid then res = .success ab.sid ab.csrf
              else res = .failure (authInvalidMsg ab.message))
         else
           res = .failure (authStatusMsg status body) ∧
             (status ≠ 401 → status ≠ 429 → n = 3 + 1)) :=
  claim_C6_amended (fun _ => .resp 401 "denied".toList (Sum.inl [])) 3 10

/-
Config client lemmas (claims C7 and C9).
-/

theorem lookupJ_setKey_self (o : JObj) (k : Str) (v : JVal) :
    lookupJ (setKey o k v) k = some v := by
  induction o with
  | nil => simp [setKey, lookupJ]
  | cons p rest ih =>
    obtain ⟨k', w⟩ := p
    by_cases h : k' = k
    · simp [setKey, lookupJ, h]
    · simp [setKey, lookupJ, h, ih]

theorem lookupJ_setKey_ne (o : JObj) (k k2 : Str) (v : JVal) (h : k ≠ k2) :
    lookupJ (setKey o k v) k2 = lookupJ o k2 := by
  induction o with
  | nil => simp [setKey, lookupJ, h]
  | cons p rest ih =>
    obtain ⟨k', w⟩ := p
    by_cases h2 : k' = k
    · subst h2
      simp [setKey, lookupJ, h]
    · simp [setKey, lookupJ, h2, ih]

theorem setPath_walk (rest : List Str) : ∀ (o o' : JObj) (v : JVal) (key : Str),
    setPath o rest v = .ok o' → walkPath (.obj o') rest key = .ok v := by
  induction rest with
  | nil =>
    intro o o' v key h
    simp [setPath] at h
  | cons k rest ih =>
    intro o o' v key h
    cases rest with
    | nil =>
      simp only [setPath, Except.ok.injEq] at h
      subst h
      simp [walkPath, lookupJ_setKey_self]
    | cons k2 r =>
      cases hlk : lookupJ o k with
      | none =>
        simp only [setPath, hlk] at h
        cases hsp : setPath [] (k2 :: r) v with
        | error e =>
          simp only [hsp] at h
          exact Except.noConfusion h
        | ok s' =>
          simp only [hsp, Except.ok.injEq] at h
          subst h
          simp only [walkPath, lookupJ_setKey_self]
          exact ih [] s' v key hsp
      | some w =>
        cases w with
        | obj s =>
          simp only [setPath, hlk] at h
          cases hsp : setPath s (k2 :: r) v with
          | error e =>
            simp only [hsp] at h
            exact Except.noConfusion h
          | ok s' =>
            simp only [hsp, Except.ok.injEq] at h
            subst h
            simp only [walkPath, lookupJ_setKey_self]
            exact ih s s' v key hsp
        | bool b => simp [setPath, hlk] at h
        | str s => simp [setPath, hlk] at h
        | num n => simp [setPath, hlk] at h

theorem setPath_shape (rest : List Str) (o o' : JObj) (v : JVal)
    (h : setPath o rest v = .ok o') (hne : rest ≠ []) :
    ∃ k tail x, rest = k :: tail ∧ o' = setKey o k x := by
  cases rest with
  | nil => exact absurd rfl hne
  | cons k tail =>
    cases tail with
    | nil =>
      simp only [setPath, Except.ok.injEq] at h
      exact ⟨k, [], v, rfl, h.symm⟩
    | cons k2 r =>
      cases hlk : lookupJ o k with
      | none =>
        simp only [setPath, hlk] at h
        cases hsp : setPath [] (k2 :: r) v with
        | error e =>
          simp only [hsp] at h
          exact Except.noConfusion h
        | ok s' =>
          simp only [hsp, Except.ok.injEq] at h
          exact ⟨k, k2 :: r, .obj s', rfl, h.symm⟩
      | some w =>
        cases w with
        | obj s =>
          simp only [setPath, hlk] at h
          cases hsp : setPath s (k2 :: r) v with
          | error e =>
            simp only [hsp] at h
            exact Except.noConfusion h
          | ok s' =>
            simp only [hsp, Except.ok.injEq] at h
            exact ⟨k, k2 :: r, .obj s', rfl, h.symm⟩
        | bool b => simp [setPath, hlk] at h
        | str s => simp [setPath, hlk] at h
        | num n => simp [setPath, hlk] at h

theorem setPath_frame (rest : List Str) : ∀ (o o' : JObj) (v : JVal) (key : Str),
    setPath o rest v = .ok o' →
    ∀ q u, ¬ (q <+: rest) → ¬ (rest <+: q) →
      walkPath (.obj o) q key = .ok u → walkPath (.obj o') q key = .ok u := by
  induction rest with
  | nil =>
    intro o o' v key h
    simp [setPath] at h
  | cons k rest ih =>
    intro o o' v key h q u hq1 hq2 hw
    cases q with
    | nil => exact absurd (List.nil_prefix) hq1
    | cons p q' =>
      by_cases hpk : p = k
      · subst hpk
        have hq1' : ¬ (q' <+: rest) := fun hc => hq1 (List.cons_prefix_cons.mpr ⟨rfl, hc⟩)
        have hq2' : ¬ (rest <+: q') := fun hc => hq2 (List.cons_prefix_cons.mpr ⟨rfl, hc⟩)
        cases rest with
        | nil => exact absurd (List.nil_prefix) hq2'
        | cons k2 r =>
          cases hlk : lookupJ o p with
          | none =>
            simp [walkPath, hlk] at hw
          | some w =>
            cases w with
            | obj s =>
              simp only [setPath, hlk] at h
              cases hsp : setPath s (k2 :: r) v with
              | error e =>
                simp only [hsp] at h
                exact Except.noConfusion h
              | ok s' =>
                simp only [hsp, Except.ok.injEq] at h
                subst h
                simp only [walkPath, hlk] at hw
                simp only [walkPath, lookupJ_setKey_self]
                exact ih s s' v key hsp q' u hq1' hq2' hw
            | bool b => simp [setPath, hlk] at h
            | str s => simp [setPath, hlk] at h
            | num n => simp [setPath, hlk] at h
      · obtain ⟨k0, tail, x, hk0, ho'⟩ :=
          setPath_shape (k :: rest) o o' v h (by simp)
        have hk0k : k0 = k := ((List.cons.injEq k0 tail k rest).mp hk0.symm).1
        subst hk0k
        subst ho'
        simp only [walkPath] at hw ⊢
        rw [lookupJ_setKey_ne o k0 p x (fun hc => hpk hc.symm)]
        exact hw

/--
C7: for a dotted key under the webserver section (split = "webserver" ::
rest, rest nonempty), when the nested write of the remaining segments
succeeds on the current section, SetConfig reads the current section,
writes the value at the path, and PUTs back the document with only the
webserver section replaced; a subsequent GetConfig of the same key returns
the written value; and every key that resolved to a value before the call
and does not lie on the path of the written key still resolves to its
previous value.
-/
theorem claim_C7 (doc w w' : JObj) (key : Str) (rest : List Str) (v : JVal)
    (hws : lookupJ doc webserverStr = some (.obj w))
    (hsplit : splitAll '.' key = webserverStr :: rest)
    (hrest : rest ≠ [])
    (hset : setPath w rest v = .ok w') :
    SetConfig doc key v = .ok (setKey doc webserverStr (.obj w')) ∧
    GetConfig (setKey doc webserverStr (.obj w')) key = .ok v ∧
    (∀ q u, ¬ (q <+: (webserverStr :: rest)) → ¬ ((webserverStr :: rest) <+: q) →
      walkPath (.obj doc) q key = .ok u →
      walkPath (.obj (setKey doc webserverStr (.obj w'))) q key = .ok u) := by
  have hlen : ¬ (webserverStr :: rest).length < 2 := by
    cases rest with
    | nil => exact absurd rfl hrest
    | cons a t => simp
  refine ⟨?_, ?_, ?_⟩
  · rw [SetConfig, hsplit]
    simp only [List.headD_cons, if_pos rfl, if_true]
    rw [setWebserverConfigValue]
    simp only [GetWebserverConfig, hws]
    rw [hsplit, if_neg hlen]
    simp only [List.drop_one, List.tail_cons, hset]
  · rw [GetConfig, hsplit]
    simp only [walkPath, lookupJ_setKey_self]
    exact setPath_walk rest w w' v key hset
  · intro q u hq1 hq2 hw
    cases q with
    | nil => exact absurd (List.nil_prefix) hq1
    | cons p q' =>
      by_cases hp : p = webserverStr
      · subst hp
        have hq1' : ¬ (q' <+: rest) :=
          fun hc => hq1 (List.cons_prefix_cons.mpr ⟨rfl, hc⟩)
        have hq2' : ¬ (rest <+: q') :=
          fun hc => hq2 (List.cons_prefix_cons.mpr ⟨rfl, hc⟩)
        simp only [walkPath, lookupJ_setKey_self]
        simp only [walkPath, hws] at hw
        exact setPath_frame rest w w' v key hset q' u hq1' hq2' hw
      · simp only [walkPath] at hw ⊢
        rw [lookupJ_setKey_ne doc webserverStr p (.obj w') (fun hc => hp hc.symm)]
        exact hw

/-- Witness for C7: a concrete webserver section with an api object holding
app_sudo = false and a sibling key; setting webserver.api.app_sudo to true
keeps the sibling intact and reads back true. -/
theorem claim_C7_witness :
    lookupJ [(webserverStr,
        JVal.obj [("api".toList,
          JVal.obj [("app_sudo".toList, JVal.bool false), ("sib".toList, JVal.num 7)])])]
      webserverStr =
      some (.obj [("api".toList,
        JVal.obj [("app_sudo".toList, JVal.bool false), ("sib".toList, JVal.num 7)])]) ∧
    splitAll '.' "webserver.api.app_sudo".toList =
      webserverStr :: ["api".toList, "app_sudo".toList] ∧
    (["api".toList, "app_sudo".toList] : List Str) ≠ [] ∧
    setPath [("api".toList,
        JVal.obj [("app_sudo".toList, JVal.bool false), ("sib".toList, JVal.num 7)])]
      ["api".toList, "app_sudo".toList] (JVal.bool true) =
      .ok [("api".toList,
        JVal.obj [("app_sudo".toList, JVal.bool true), ("sib".toList, JVal.num 7)])] ∧
    (SetConfig [(webserverStr,
        JVal.obj [("api".toList,
          JVal.obj [("app_sudo".toList, JVal.bool false), ("sib".toList, JVal.num 7)])])]
      "webserver.api.app_sudo".toList (JVal.bool true) =
      .ok (setKey [(webserverStr,
        JVal.obj [("api".toList,
          JVal.obj [("app_sudo".toList, JVal.bool false), ("sib".toList, JVal.num 7)])])]
        webserverStr
        (.obj [("api".toList,
          JVal.obj [("app_sudo".toList, JVal.bool true), ("sib".toList, JVal.num 7)])])) ∧
      GetConfig (setKey [(webserverStr,
        JVal.obj [("api".toList,
          JVal.obj [("app_sudo".toList, JVal.bool false), ("sib".toList, JVal.num 7)])])]
        webserverStr
        (.obj [("api".toList,
          JVal.obj [("app_sudo".toList, JVal.bool true), ("sib".toList, JVal.num 7)])]))
        "webserver.api.app_sudo".toList = .ok (JVal.bool true) ∧
      (∀ q u,
        ¬ (q <+: (webserverStr :: ["api".toList, "app_sudo".toList])) →
        ¬ ((webserverStr :: ["api".toList, "app_sudo".toList]) <+: q) →
        walkPath (.obj [(webserverStr,
          JVal.obj [("api".toList,
            JVal.obj [("app_sudo".toList, JVal.bool false), ("sib".toList, JVal.num 7)])])])
          q "webserver.api.app_sudo".toList = .ok u →
        walkPath (.obj (setKey [(webserverStr,
          JVal.obj [("api".toList,
            JVal.obj [("app_sudo".toList, JVal.bool false), ("sib".toList, JVal.num 7)])])]
          webserverStr
          (.obj [("api".toList,
            JVal.obj [("app_sudo".toList, JVal.bool true), ("sib".toList, JVal.num 7)])])))
          q "webserver.api.app_sudo".toList = .ok u)) :=
  ⟨rfl, rfl, by simp, rfl,
    claim_C7 _ _ _ _ _ _ rfl rfl (by simp) rfl⟩

theorem foldl_stepField_none (parts : List Str) :
    parts.foldl stepField none = none := by
  induction parts with
  | nil => rfl
  | cons a rest ih =>
    rw [List.foldl_cons]
    have h1 : stepField none a = none := rfl
    rw [h1, ih]

theorem walkPath_resolve (parts : List Str) : ∀ (v0 : JVal) (key : Str) (u : JVal),
    walkPath v0 parts key = .ok u ↔ resolvePath v0 parts = some u := by
  induction parts with
  | nil =>
    intro v0 key u
    simp [walkPath, resolvePath]
  | cons a rest ih =>
    intro v0 key u
    cases v0 with
    | obj o =>
      cases hlk : lookupJ o a with
      | none =>
        have hnone : resolvePath (JVal.obj o) (a :: rest) = none := by
          show (a :: rest).foldl stepField (some (JVal.obj o)) = none
          rw [List.foldl_cons]
          have : stepField (some (JVal.obj o)) a = none := by
            show lookupJ o a = none
            exact hlk
          rw [this, foldl_stepField_none]
        rw [hnone]
        simp [walkPath, hlk]
      | some w =>
        have hstep : resolvePath (JVal.obj o) (a :: rest) = resolvePath w rest := by
          show (a :: rest).foldl stepField (some (JVal.obj o)) = rest.foldl stepField (some w)
          rw [List.foldl_cons]
          have : stepField (some (JVal.obj o)) a = some w := by
            show lookupJ o a = some w
            exact hlk
          rw [this]
        rw [hstep]
        simp only [walkPath, hlk]
        exact ih w key u
    | bool b =>
      have hnone : resolvePath (JVal.bool b) (a :: rest) = none := by
        show (a :: rest).foldl stepField (some (JVal.bool b)) = none
        rw [List.foldl_cons]
        have : stepField (some (JVal.bool b)) a = none := rfl
        rw [this, foldl_stepField_none]
      rw [hnone]
      simp [walkPath]
    | str s2 =>
      have hnone : resolvePath (JVal.str s2) (a :: rest) = none := by
        show (a :: rest).foldl stepField (some (JVal.str s2)) = none
        rw [List.foldl_cons]
        have : stepField (some (JVal.str s2)) a = none := rfl
        rw [this, foldl_stepField_none]
      rw [hnone]
      simp [walkPath]
    | num n2 =>
      have hnone : resolvePath (JVal.num n2) (a :: rest) = none := by
        show (a :: rest).foldl stepField (some (JVal.num n2)) = none
        rw [List.foldl_cons]
        have : stepField (some (JVal.num n2)) a = none := rfl
        rw [this, foldl_stepField_none]
      rw [hnone]
      simp [walkPath]

theorem walkPath_notFound_iff (parts : List Str) : ∀ (v0 : JVal) (key : Str),
    walkPath v0 parts key = .error (.notFound key) ↔
      ∃ p s q, parts = p ++ s :: q ∧
        ∃ o, walkPath v0 p key = .ok (.obj o) ∧ lookupJ o s = none := by
  induction parts with
  | nil =>
    intro v0 key
    constructor
    · intro h
      simp [walkPath] at h
    · rintro ⟨p, s, q, hpq, -⟩
      exact absurd hpq (by simp)
  | cons a rest ih =>
    intro v0 key
    cases v0 with
    | obj o =>
      cases hlk : lookupJ o a with
      | none =>
        constructor
        · intro _
          exact ⟨[], a, rest, rfl, o, rfl, hlk⟩
        · intro _
          simp [walkPath, hlk]
      | some w =>
        constructor
        · intro h
          simp only [walkPath, hlk] at h
          obtain ⟨p, s, q, hpq, o2, hwalk, hlk2⟩ := (ih w key).mp h
          refine ⟨a :: p, s, q, by simp [hpq], o2, ?_, hlk2⟩
          simpa [walkPath, hlk] using hwalk
        · rintro ⟨p, s, q, hpq, o2, hwalk, hlk2⟩
          simp only [walkPath, hlk]
          cases p with
          | nil =>
            simp only [List.nil_append] at hpq
            obtain ⟨rfl, rfl⟩ := (List.cons.injEq a rest s q).mp hpq
            simp only [walkPath, Except.ok.injEq] at hwalk
            cases hwalk
            rw [hlk] at hlk2
            exact Option.noConfusion hlk2
          | cons p0 p' =>
            simp only [List.cons_append] at hpq
            obtain ⟨rfl, hrest⟩ := (List.cons.injEq a rest p0 (p' ++ s :: q)).mp hpq
            simp only [walkPath, hlk] at hwalk
            exact (ih w key).mpr ⟨p', s, q, hrest, o2, hwalk, hlk2⟩
    | bool b =>
      constructor
      · intro h
        simp [walkPath] at h
      · rintro ⟨p, s, q, hpq, o2, hwalk, -⟩
        cases p with
        | nil => simp [walkPath] at hwalk
        | cons p0 p' => simp [walkPath] at hwalk
    | str sv =>
      constructor
      · intro h
        simp [walkPath] at h
      · rintro ⟨p, s, q, hpq, o2, hwalk, -⟩
        cases p with
        | nil => simp [walkPath] at hwalk
        | cons p0 p' => simp [walkPath] at hwalk
    | num nv =>
      constructor
      · intro h
        simp [walkPath] at h
      · rintro ⟨p, s, q, hpq, o2, hwalk, -⟩
        cases p with
        | nil => simp [walkPath] at hwalk
        | cons p0 p' => simp [walkPath] at hwalk

theorem walkPath_badStructure_iff (parts : List Str) : ∀ (v0 : JVal) (key : Str),
    walkPath v0 parts key = .error (.badStructure key) ↔
      ∃ p s q, parts = p ++ s :: q ∧
        ∃ w, walkPath v0 p key = .ok w ∧ isObjB w = false := by
  induction parts with
  | nil =>
    intro v0 key
    constructor
    · intro h
      simp [walkPath] at h
    · rintro ⟨p, s, q, hpq, -⟩
      exact absurd hpq (by simp)
  | cons a rest ih =>
    intro v0 key
    cases v0 with
    | obj o =>
      cases hlk : lookupJ o a with
      | none =>
        constructor
        · intro h
          simp [walkPath, hlk] at h
        · rintro ⟨p, s, q, hpq, w2, hwalk, hobj⟩
          cases p with
          | nil =>
            simp only [walkPath, Except.ok.injEq] at hwalk
            cases hwalk
            simp [isObjB] at hobj
          | cons p0 p' =>
            simp only [List.cons_append] at hpq
            obtain ⟨rfl, hrest⟩ := (List.cons.injEq a rest p0 (p' ++ s :: q)).mp hpq
            simp [walkPath, hlk] at hwalk
      | some w =>
        constructor
        · intro h
          simp only [walkPath, hlk] at h
          obtain ⟨p, s, q, hpq, w2, hwalk, hobj⟩ := (ih w key).mp h
          refine ⟨a :: p, s, q, by simp [hpq], w2, ?_, hobj⟩
          simpa [walkPath, hlk] using hwalk
        · rintro ⟨p, s, q, hpq, w2, hwalk, hobj⟩
          simp only [walkPath, hlk]
          cases p with
          | nil =>
            simp only [walkPath, Except.ok.injEq] at hwalk
            cases hwalk
            simp [isObjB] at hobj
          | cons p0 p' =>
            simp only [List.cons_append] at hpq
            obtain ⟨rfl, hrest⟩ := (List.cons.injEq a rest p0 (p' ++ s :: q)).mp hpq
            simp only [walkPath, hlk] at hwalk
            exact (ih w key).mpr ⟨p', s, q, hrest, w2, hwalk, hobj⟩
    | bool b =>
      constructor
      · intro _
        exact ⟨[], a, rest, rfl, .bool b, rfl, rfl⟩
      · intro _
        simp [walkPath]
    | str sv =>
      constructor
      · intro _
        exact ⟨[], a, rest, rfl, .str sv, rfl, rfl⟩
      · intro _
        simp [walkPath]
    | num nv =>
      constructor
      · intro _
        exact ⟨[], a, rest, rfl, .num nv, rfl, rfl⟩
      · intro _
        simp [walkPath]

theorem walkPath_cases (parts : List Str) : ∀ (v0 : JVal) (key : Str),
    (∃ u, walkPath v0 parts key = .ok u) ∨
    walkPath v0 parts key = .error (.notFound key) ∨
    walkPath v0 parts key = .error (.badStructure key) := by
  induction parts with
  | nil =>
    intro v0 key
    cases v0 <;> exact Or.inl ⟨_, rfl⟩
  | cons a rest ih =>
    intro v0 key
    cases v0 with
    | obj o =>
      cases hlk : lookupJ o a with
      | none =>
        refine Or.inr (Or.inl ?_)
        simp [walkPath, hlk]
      | some w =>
        simp only [walkPath, hlk]
        exact ih w key
    | bool b =>
      refine Or.inr (Or.inr ?_)
      simp [walkPath]
    | str sv =>
      refine Or.inr (Or.inr ?_)
      simp [walkPath]
    | num nv =>
      refine Or.inr (Or.inr ?_)
      simp [walkPath]

/--
C9: GetConfig returns the not-found error exactly when some segment of the
dotted key is absent at its step of the walk (there is a prefix that
resolves to an object lacking the next segment); it returns the structure
error exactly when a value reached on the path is not itself a nested
object while segments remain; otherwise it returns the value at the path
(it agrees with pure path resolution, and always yields one of these three
outcomes); and SetConfig on a key whose first segment is not the supported
webserver namespace fails immediately with the unsupported-configuration
error.  All these errors are produced by pure post-processing of a single
fetched document — the embedding contains no retry around them.
-/
theorem claim_C9 (doc : JObj) (key : Str) (v : JVal) :
    (GetConfig doc key = .error (.notFound key) ↔
      ∃ p s q, splitAll '.' key = p ++ s :: q ∧
        ∃ o, walkPath (.obj doc) p key = .ok (.obj o) ∧ lookupJ o s = none) ∧
    (GetConfig doc key = .error (.badStructure key) ↔
      ∃ p s q, splitAll '.' key = p ++ s :: q ∧
        ∃ w, walkPath (.obj doc) p key = .ok w ∧ isObjB w = false) ∧
    (GetConfig doc key = .ok v ↔ resolvePath (.obj doc) (splitAll '.' key) = some v) ∧
    ((∃ u, GetConfig doc key = .ok u) ∨ GetConfig doc key = .error (.notFound key) ∨
      GetConfig doc key = .error (.badStructure key)) ∧
    (∀ ns, (splitAll '.' key).headD [] = ns → ns ≠ webserverStr →
      SetConfig doc key v = .error (.notSupported ns)) := by
  refine ⟨?_, ?_, ?_, ?_, ?_⟩
  · exact walkPath_notFound_iff (splitAll '.' key) (.obj doc) key
  · exact walkPath_badStructure_iff (splitAll '.' key) (.obj doc) key
  · exact walkPath_resolve (splitAll '.' key) (.obj doc) key v
  · exact walkPath_cases (splitAll '.' key) (.obj doc) key
  · intro ns hhead hns
    rw [SetConfig]
    rw [hhead, if_neg hns]

/-- Witness for C9: reading a present path and writing under an
unsupported namespace on a concrete document. -/
theorem claim_C9_witness :
    (GetConfig [("dns".toList, JVal.obj [("x".toList, JVal.num 3)])]
        "dns.x".toList = .ok (JVal.num 3) ↔
      resolvePath (.obj [("dns".toList, JVal.obj [("x".toList, JVal.num 3)])])
        (splitAll '.' "dns.x".toList) = some (JVal.num 3)) ∧
    SetConfig [("dns".toList, JVal.obj [("x".toList, JVal.num 3)])]
      "dns.x".toList (JVal.num 3) = .error (.notSupported "dns".toList) :=
  ⟨(claim_C9 [("dns".toList, JVal.obj [("x".toList, JVal.num 3)])]
      "dns.x".toList (JVal.num 3)).2.2.1,
    (claim_C9 [("dns".toList, JVal.obj [("x".toList, JVal.num 3)])]
      "dns.x".toList (JVal.num 3)).2.2.2.2 "dns".toList rfl (by decide)⟩

/--
C10 counterexample: the cache key is the concatenation url + "|" +
password, which is not injective on (endpoint, credential) pairs: the
distinct pairs ("a|b", "c") and ("a", "b|c") produce the same key, so the
second caller receives the first caller's client — constructed with
endpoint "a|b", not the presented "a" — and only one cache entry is used.
-/
theorem claim_C10_counterexample :
    ("a|b".toList, "c".toList) ≠ ("a".toList, "b|c".toList) ∧
    cacheKey "a|b".toList "c".toList = cacheKey "a".toList "b|c".toList ∧
    (getOrCreateClient
        (getOrCreateClient [] "a|b".toList "c".toList).2 "a".toList "b|c".toList).1 =
      (getOrCreateClient [] "a|b".toList "c".toList).1 ∧
    (getOrCreateClient
        (getOrCreateClient [] "a|b".toList "c".toList).2
        "a".toList "b|c".toList).1.baseURL ≠ "a".toList ∧
    (getOrCreateClient
        (getOrCreateClient [] "a|b".toList "c".toList).2
        "a".toList "b|c".toList).2.length = 1 := by
  decide

/--
C10 amended: for every two (endpoint, credential) pairs whose
concatenated cache keys url + "|" + password differ, two distinct cache
entries are used and two distinct client instances are returned, each
constructed with exactly the endpoint and the credential its caller
presented; distinct pairs are guaranteed separate clients only under that
key-distinctness condition (which holds whenever neither url embeds the
"|" separator ambiguity).
-/
theorem claim_C10_amended (u1 p1 u2 p2 : Str)
    (hk : cacheKey u1 p1 ≠ cacheKey u2 p2) :
    ∃ c1 cache1 c2 cache2,
      getOrCreateClient [] u1 p1 = (c1, cache1) ∧
      getOrCreateClient cache1 u2 p2 = (c2, cache2) ∧
      c1 = ⟨u1, p1⟩ ∧ c2 = ⟨u2, p2⟩ ∧ c1 ≠ c2 ∧ cache2.length = 2 := by
  refine ⟨⟨u1, p1⟩, [(cacheKey u1 p1, ⟨u1, p1⟩)], ⟨u2, p2⟩,
    [(cacheKey u2 p2, ⟨u2, p2⟩), (cacheKey u1 p1, ⟨u1, p1⟩)], rfl, ?_, rfl, rfl, ?_, rfl⟩
  · rw [getOrCreateClient]
    have hlk : lookupC [(cacheKey u1 p1, ⟨u1, p1⟩)] (cacheKey u2 p2) = none := by
      simp [lookupC, hk]
    rw [hlk]
  · intro hc
    have h1 : u1 = u2 := congrArg Client.baseURL hc
    have h2 : p1 = p2 := congrArg Client.password hc
    exact hk (by rw [h1, h2])

/-- Witness for the amended C10 at concrete distinct pairs. -/
theorem claim_C10_witness :
    cacheKey "http1".toList "pw1".toList ≠ cacheKey "http2".toList "pw2".toList ∧
    (∃ c1 cache1 c2 cache2,
      getOrCreateClient [] "http1".toList "pw1".toList = (c1, cache1) ∧
      getOrCreateClient cache1 "http2".toList "pw2".toList = (c2, cache2) ∧
      c1 = ⟨"http1".toList, "pw1".toList⟩ ∧ c2 = ⟨"http2".toList, "pw2".toList⟩ ∧
      c1 ≠ c2 ∧ cache2.length = 2) :=
  ⟨by decide,
    claim_C10_amended "http1".toList "pw1".toList "http2".toList "pw2".toList (by decide)⟩

/-
Session-cache concurrency lemmas (claim C3).
-/

theorem getElem?_some_lt {α : Type} {l : List α} {i : Nat} {a : α}
    (h : l[i]? = some a) : i < l.length := by
  by_contra hc
  rw [List.getElem?_eq_none (by omega)] at h
  exact Option.noConfusion h

theorem replicate_getElem?_eq {α : Type} (n i : Nat) (a b : α)
    (h : (List.replicate n a)[i]? = some b) : b = a := by
  induction n generalizing i with
  | zero => simp [List.replicate] at h
  | succ m ih =>
    cases i with
    | zero =>
      simp only [List.replicate, List.getElem?_cons_zero, Option.some.injEq] at h
      exact h.symm
    | succ j =>
      simp only [List.replicate, List.getElem?_cons_succ] at h
      exact ih j h

theorem countP_set_eq {α : Type} (l : List α) (i : Nat) (x y : α) (p : α → Bool)
    (hx : l[i]? = some x) :
    (l.set i y).countP p + (if p x then 1 else 0) =
      l.countP p + (if p y then 1 else 0) := by
  induction l generalizing i with
  | nil => simp at hx
  | cons a t ih =>
    cases i with
    | zero =>
      simp only [List.getElem?_cons_zero, Option.some.injEq] at hx
      subst hx
      simp only [List.set_cons_zero]
      rw [List.countP_cons, List.countP_cons]
      omega
    | succ j =>
      simp only [List.getElem?_cons_succ] at hx
      simp only [List.set_cons_succ]
      rw [List.countP_cons, List.countP_cons]
      have := ih j hx
      omega

theorem countP_le_one_of_unique {α : Type} (l : List α) (p : α → Bool)
    (h : ∀ (i j : Nat) (x y : α), l[i]? = some x → l[j]? = some y →
      p x = true → p y = true → i = j) :
    l.countP p ≤ 1 := by
  induction l with
  | nil => simp
  | cons a t ih =>
    rw [List.countP_cons]
    by_cases hpa : p a = true
    · have ht : t.countP p = 0 := by
        rw [List.countP_eq_zero]
        intro x hx hpx
        obtain ⟨j, hj⟩ := List.getElem?_of_mem hx
        have := h 0 (j + 1) a x (by simp) (by simpa using hj) hpa hpx
        omega
      rw [ht]
      simp [hpa]
    · have hforall : ∀ (i j : Nat) (x y : α), t[i]? = some x → t[j]? = some y →
          p x = true → p y = true → i = j := by
        intro i j x y hx hy hpx hpy
        have := h (i + 1) (j + 1) x y (by simpa using hx) (by simpa using hy) hpx hpy
        omega
      have := ih hforall
      simp [hpa]
      omega

theorem set_pc_cases {tps : List PC} {i j : Nat} {newpc pc : PC} (hlen : i < tps.length)
    (hget : (tps.set i newpc)[j]? = some pc) :
    (j = i ∧ pc = newpc) ∨ (j ≠ i ∧ tps[j]? = some pc) := by
  by_cases hj : j = i
  · subst hj
    rw [List.getElem?_set_self hlen] at hget
    injection hget with hh
    exact Or.inl ⟨rfl, hh.symm⟩
  · rw [List.getElem?_set_ne (Ne.symm hj)] at hget
    exact Or.inr ⟨hj, hget⟩

theorem cacheInv_init (n : Nat) : CacheInv (initSys n) := by
  refine ⟨?_, ?_, ?_, ?_⟩
  · intro i pc hget hold
    have := replicate_getElem?_eq n i PC.start pc hget
    subst this
    exact absurd hold (by simp [holdsW])
  · show (0 : Nat) = (if (none : Option Nat).isSome then 1 else 0) +
      (List.replicate n PC.start).countP isCreatedPC
    rw [List.countP_eq_zero.mpr ?_]
    · simp
    · intro x hx
      have := List.eq_of_mem_replicate hx
      subst this
      simp [isCreatedPC]
  · intro i c hget
    have := replicate_getElem?_eq n i PC.start (PC.done c) hget
    exact PC.noConfusion this
  · intro i c hget
    have := replicate_getElem?_eq n i PC.start (PC.created c) hget
    exact PC.noConfusion this

theorem cacheInv_step {s s' : Sys} (hinv : CacheInv s) (hstep : Step s s') :
    CacheInv s' := by
  obtain ⟨w1, w2, w3, w4⟩ := hinv
  cases hstep with
  | rlock i hpc hwr =>
    have hlen := getElem?_some_lt hpc
    refine ⟨?_, ?_, ?_, ?_⟩
    · intro j pc hget hold
      dsimp only at hget ⊢
      rcases set_pc_cases hlen hget with ⟨rfl, rfl⟩ | ⟨hj, hget'⟩
      · exact absurd hold (by simp [holdsW])
      · exact w1 j pc hget' hold
    · dsimp only
      have hcp := countP_set_eq s.tps i PC.start PC.rlocked isCreatedPC hpc
      simp [isCreatedPC] at hcp
      omega
    · intro j c hget
      dsimp only at hget ⊢
      rcases set_pc_cases hlen hget with ⟨rfl, heq⟩ | ⟨hj, hget'⟩
      · exact PC.noConfusion heq
      · exact w3 j c hget'
    · intro j c hget
      dsimp only at hget ⊢
      rcases set_pc_cases hlen hget with ⟨rfl, heq⟩ | ⟨hj, hget'⟩
      · exact PC.noConfusion heq
      · exact w4 j c hget'
  | rhit i c hpc hcache =>
    have hlen := getElem?_some_lt hpc
    refine ⟨?_, ?_, ?_, ?_⟩
    · intro j pc hget hold
      dsimp only at hget ⊢
      rcases set_pc_cases hlen hget with ⟨rfl, rfl⟩ | ⟨hj, hget'⟩
      · exact absurd hold (by simp [holdsW])
      · exact w1 j pc hget' hold
    · dsimp only
      have hcp := countP_set_eq s.tps i PC.rlocked (PC.done c) isCreatedPC hpc
      simp [isCreatedPC] at hcp
      omega
    · intro j c0 hget
      dsimp only at hget ⊢
      rcases set_pc_cases hlen hget with ⟨rfl, heq⟩ | ⟨hj, hget'⟩
      · injection heq with hcc
        subst hcc
        exact hcache
      · exact w3 j c0 hget'
    · intro j c0 hget
      dsimp only at hget ⊢
      rcases set_pc_cases hlen hget with ⟨rfl, heq⟩ | ⟨hj, hget'⟩
      · exact PC.noConfusion heq
      · exact w4 j c0 hget'
  | rmiss i hpc hcache =>
    have hlen := getElem?_some_lt hpc
    refine ⟨?_, ?_, ?_, ?_⟩
    · intro j pc hget hold
      dsimp only at hget ⊢
      rcases set_pc_cases hlen hget with ⟨rfl, rfl⟩ | ⟨hj, hget'⟩
      · exact absurd hold (by simp [holdsW])
      · exact w1 j pc hget' hold
    · dsimp only
      have hcp := countP_set_eq s.tps i PC.rlocked PC.wwait isCreatedPC hpc
      simp [isCreatedPC] at hcp
      omega
    · intro j c0 hget
      dsimp only at hget ⊢
      rcases set_pc_cases hlen hget with ⟨rfl, heq⟩ | ⟨hj, hget'⟩
      · exact PC.noConfusion heq
      · exact w3 j c0 hget'
    · intro j c0 hget
      dsimp only at hget ⊢
      rcases set_pc_cases hlen hget with ⟨rfl, heq⟩ | ⟨hj, hget'⟩
      · exact PC.noConfusion heq
      · exact w4 j c0 hget'
  | wlock i hpc hwr hrd =>
    have hlen := getElem?_some_lt hpc
    refine ⟨?_, ?_, ?_, ?_⟩
    · intro j pc hget hold
      dsimp only at hget ⊢
      rcases set_pc_cases hlen hget with ⟨rfl, rfl⟩ | ⟨hj, hget'⟩
      · rfl
      · have := w1 j pc hget' hold
        rw [hwr] at this
        exact Option.noConfusion this
    · dsimp only
      have hcp := countP_set_eq s.tps i PC.wwait PC.wlocked isCreatedPC hpc
      simp [isCreatedPC] at hcp
      omega
    · intro j c0 hget
      dsimp only at hget ⊢
      rcases set_pc_cases hlen hget with ⟨rfl, heq⟩ | ⟨hj, hget'⟩
      · exact PC.noConfusion heq
      · exact w3 j c0 hget'
    · intro j c0 hget
      dsimp only at hget ⊢
      rcases set_pc_cases hlen hget with ⟨rfl, heq⟩ | ⟨hj, hget'⟩
      · exact PC.noConfusion heq
      · exact w4 j c0 hget'
  | whit i c hpc hcache =>
    have hlen := getElem?_some_lt hpc
    refine ⟨?_, ?_, ?_, ?_⟩
    · intro j pc hget hold
      dsimp only at hget ⊢
      rcases set_pc_cases hlen hget with ⟨rfl, rfl⟩ | ⟨hj, hget'⟩
      · exact absurd hold (by simp [holdsW])
      · have hji := w1 j pc hget' hold
        have hii := w1 i PC.wlocked hpc (by simp [holdsW])
        rw [hii] at hji
        injection hji with hji2
        exact absurd hji2.symm hj
    · dsimp only
      have hcp := countP_set_eq s.tps i PC.wlocked (PC.done c) isCreatedPC hpc
      simp [isCreatedPC] at hcp
      omega
    · intro j c0 hget
      dsimp only at hget ⊢
      rcases set_pc_cases hlen hget with ⟨rfl, heq⟩ | ⟨hj, hget'⟩
      · injection heq with hcc
        subst hcc
        exact hcache
      · exact w3 j c0 hget'
    · intro j c0 hget
      dsimp only at hget ⊢
      rcases set_pc_cases hlen hget with ⟨rfl, heq⟩ | ⟨hj, hget'⟩
      · exact PC.noConfusion heq
      · exact w4 j c0 hget'
  | wauth i hpc hcache =>
    have hlen := getElem?_some_lt hpc
    refine ⟨?_, ?_, ?_, ?_⟩
    · intro j pc hget hold
      dsimp only at hget ⊢
      rcases set_pc_cases hlen hget with ⟨rfl, rfl⟩ | ⟨hj, hget'⟩
      · exact w1 j PC.wlocked hpc (by simp [holdsW])
      · exact w1 j pc hget' hold
    · dsimp only
      have hcp := countP_set_eq s.tps i PC.wlocked (PC.created s.nextId) isCreatedPC hpc
      simp [isCreatedPC] at hcp
      rw [hcache] at w2
      simp at w2
      simp [hcache]
      omega
    · intro j c0 hget
      dsimp only at hget ⊢
      rcases set_pc_cases hlen hget with ⟨rfl, heq⟩ | ⟨hj, hget'⟩
      · exact PC.noConfusion heq
      · have := w3 j c0 hget'
        rw [hcache] at this
        exact Option.noConfusion this
    · intro j c0 hget
      dsimp only at hget ⊢
      rcases set_pc_cases hlen hget with ⟨rfl, heq⟩ | ⟨hj, hget'⟩
      · exact hcache
      · exact w4 j c0 hget'
  | winsert i c hpc =>
    have hlen := getElem?_some_lt hpc
    have hnone : s.cache = none := w4 i c hpc
    have hwi : s.writer = some i := w1 i (PC.created c) hpc (by simp [holdsW])
    refine ⟨?_, ?_, ?_, ?_⟩
    · intro j pc hget hold
      dsimp only at hget ⊢
      rcases set_pc_cases hlen hget with ⟨rfl, rfl⟩ | ⟨hj, hget'⟩
      · exact absurd hold (by simp [holdsW])
      · have hji := w1 j pc hget' hold
        rw [hwi] at hji
        injection hji with hji2
        exact absurd hji2.symm hj
    · dsimp only
      have hcp := countP_set_eq s.tps i (PC.created c) (PC.done c) isCreatedPC hpc
      simp [isCreatedPC] at hcp
      rw [hnone] at w2
      simp at w2
      simp
      omega
    · intro j c0 hget
      dsimp only at hget ⊢
      rcases set_pc_cases hlen hget with ⟨rfl, heq⟩ | ⟨hj, hget'⟩
      · injection heq with hcc
        subst hcc
        rfl
      · have := w3 j c0 hget'
        rw [hnone] at this
        exact Option.noConfusion this
    · intro j c0 hget
      dsimp only at hget ⊢
      rcases set_pc_cases hlen hget with ⟨rfl, heq⟩ | ⟨hj, hget'⟩
      · exact PC.noConfusion heq
      · have hji := w1 j (PC.created c0) hget' (by simp [holdsW])
        rw [hwi] at hji
        injection hji with hji2
        exact absurd hji2.symm hj

/--
C3: in the interleaving model of getOrCreateClient for one fixed
(endpoint, credential) pair, in every state reachable by any interleaving
of any number of callers, at most one authentication call has been made;
once any caller has completed, exactly one authentication call has been
made; and all completed callers hold the same single client instance.
-/
theorem claim_C3 (n : Nat) (s : Sys) (h : Reach (initSys n) s) :
    s.authCount ≤ 1 ∧
    ((∃ i ci : Nat, s.tps[i]? = some (PC.done ci)) → s.authCount = 1) ∧
    (∀ i j ci cj : Nat, s.tps[i]? = some (PC.done ci) →
      s.tps[j]? = some (PC.done cj) → ci = cj) := by
  have hinv : CacheInv s := by
    induction h with
    | refl => exact cacheInv_init n
    | step hr hs ih => exact cacheInv_step ih hs
  obtain ⟨w1, w2, w3, w4⟩ := hinv
  have hcount : s.tps.countP isCreatedPC ≤ 1 := by
    apply countP_le_one_of_unique
    intro i j x y hx hy hpx hpy
    have hwx : holdsW x := by
      cases x with
      | created c => trivial
      | wlocked => trivial
      | start => simp [isCreatedPC] at hpx
      | rlocked => simp [isCreatedPC] at hpx
      | wwait => simp [isCreatedPC] at hpx
      | done c => simp [isCreatedPC] at hpx
    have hwy : holdsW y := by
      cases y with
      | created c => trivial
      | wlocked => trivial
      | start => simp [isCreatedPC] at hpy
      | rlocked => simp [isCreatedPC] at hpy
      | wwait => simp [isCreatedPC] at hpy
      | done c => simp [isCreatedPC] at hpy
    have h1 := w1 i x hx hwx
    have h2 := w1 j y hy hwy
    rw [h1] at h2
    exact Option.some.inj h2
  have hzero_of_some : ∀ c : Nat, s.cache = some c → s.tps.countP isCreatedPC = 0 := by
    intro c hc
    rw [List.countP_eq_zero]
    intro x hx hpx
    cases x with
    | created c0 =>
      obtain ⟨j, hj⟩ := List.getElem?_of_mem hx
      have := w4 j c0 hj
      rw [hc] at this
      exact Option.noConfusion this
    | start => simp [isCreatedPC] at hpx
    | rlocked => simp [isCreatedPC] at hpx
    | wwait => simp [isCreatedPC] at hpx
    | wlocked => simp [isCreatedPC] at hpx
    | done c0 => simp [isCreatedPC] at hpx
  refine ⟨?_, ?_, ?_⟩
  · cases hc : s.cache with
    | none =>
      rw [w2, hc]
      simpa using hcount
    | some c =>
      rw [w2, hc, hzero_of_some c hc]
      simp
  · rintro ⟨i, ci, hi⟩
    have hsome := w3 i ci hi
    rw [w2, hsome, hzero_of_some ci hsome]
    simp
  · intro i j ci cj hi hj
    have h1 := w3 i ci hi
    have h2 := w3 j cj hj
    rw [h1] at h2
    exact Option.some.inj h2

/-- Witness for C3: a complete concrete interleaving of two callers
(caller 0 misses, authenticates and publishes; caller 1 hits the cache)
reaching a state where both are done with the same client and one
authentication call was made. -/
theorem claim_C3_witness :
    c3final.authCount ≤ 1 ∧
    ((∃ i ci : Nat, c3final.tps[i]? = some (PC.done ci)) → c3final.authCount = 1) ∧
    (∀ i j ci cj : Nat, c3final.tps[i]? = some (PC.done ci) →
      c3final.tps[j]? = some (PC.done cj) → ci = cj) := by
  have h1 : Step (initSys 2) c3s1 := Step.rlock (initSys 2) 0 rfl rfl
  have h2 : Step c3s1 c3s2 := Step.rmiss c3s1 0 rfl rfl
  have h3 : Step c3s2 c3s3 := Step.wlock c3s2 0 rfl rfl rfl
  have h4 : Step c3s3 c3s4 := Step.wauth c3s3 0 rfl rfl
  have h5 : Step c3s4 c3s5 := Step.winsert c3s4 0 0 rfl
  have h6 : Step c3s5 c3s6 := Step.rlock c3s5 1 rfl rfl
  have h7 : Step c3s6 c3final := Step.rhit c3s6 1 0 rfl rfl
  have hreach : Reach (initSys 2) c3final :=
    Reach.step (Reach.step (Reach.step (Reach.step (Reach.step
      (Reach.step (Reach.step Reach.refl h1) h2) h3) h4) h5) h6) h7
  exact claim_C3 2 c3final hreach

/-- Witness for C2: deleting an absent domain on a concrete store issues
no mutating call and leaves the store unchanged. -/
theorem claim_C2_witness :
    (DeleteDNSRecord ["10.0.0.5 a.example.com".toList] "b.example.com".toList =
      ([getHostsReq], ["10.0.0.5 a.example.com".toList]) ∧
     mutating (DeleteDNSRecord ["10.0.0.5 a.example.com".toList]
       "b.example.com".toList).1 = []) ∧
    (DeleteCNAMERecord [] "b.example.com".toList = ([getCnamesReq], []) ∧
     mutating (DeleteCNAMERecord [] "b.example.com".toList).1 = []) :=
  claim_C2 ["10.0.0.5 a.example.com".toList] [] "b.example.com".toList

/-- Witness for C8 at a concrete wire response holding one well-formed and
one malformed line of each kind. -/
theorem claim_C8_witness :
    GetDNSRecords ["1.2.3.4 ex.com".toList, "garbage".toList] =
      ((["1.2.3.4 ex.com".toList, "garbage".toList].filter
        (fun l => l.any (fun c => c == ' '))).map
        (fun l => { ip := beforeSep ' ' l, domain := afterSep ' ' l })) ∧
    GetCNAMERecords ["www.ex.com,ex.com".toList, "junk".toList] =
      ((["www.ex.com,ex.com".toList, "junk".toList].filter
        (fun l => l.any (fun c => c == ','))).map
        (fun l => { domain := beforeSep ',' l, target := afterSep ',' l })) :=
  claim_C8 ["1.2.3.4 ex.com".toList, "garbage".toList]
    ["www.ex.com,ex.com".toList, "junk".toList]
